import Mathlib

/-!
Verification of the obsidian-mcp mutation-safety core against its
natural-language specification.

The TypeScript sources under `src/` are shallowly embedded as Lean
definitions: JSON values become an inductive `Json`, the `zod` canvas
schema becomes an executable issue-collecting validator, the filesystem
becomes an association list from path strings to content strings, and the
fallible `fs` primitives of the edit/create/delete tools become explicit
state-passing functions parameterised by a fault pattern (which primitive
calls fail, modelling simulated I/O errors).

Helpers that live outside the provided sources (`utils/path.js`,
`utils/files.js`, `utils/errors.js`, `utils/tags.js`) are modelled from the
specification; each such definition carries a doc comment saying so.
-/

set_option autoImplicit false

namespace ObsidianMcp

/-! ## JSON values

Embedding of the JavaScript JSON data model as used by the canvas tools.
Numbers are modelled as an integer value together with an `isInt` flag
(`Number.isInteger`); the fractional part of non-integral literals is
dropped, which is irrelevant here because every check the canvas schema
performs on numbers first requires integrality. -/

inductive Json where
  | null : Json
  | bool (b : Bool) : Json
  | num (isInt : Bool) (val : Int) : Json
  | str (s : String) : Json
  | arr (elems : List Json) : Json
  | obj (fields : List (String × Json)) : Json
deriving Repr

/-- The double-quote character. -/
def quoteChar : Char := Char.ofNat 34

/-- The backslash character. -/
def backslashChar : Char := Char.ofNat 92

/-- The opening curly brace character. -/
def lbraceChar : Char := Char.ofNat 123

/-- The closing curly brace character. -/
def rbraceChar : Char := Char.ofNat 125

/-- Skip JSON whitespace (space, tab, newline, carriage return). -/
def skipWs : List Char → List Char
  | [] => []
  | c :: rest =>
    if c = ' ' ∨ c = '\t' ∨ c = '\n' ∨ c = '\r' then skipWs rest else c :: rest


/-- JS `String.prototype.endsWith`, character-list based so that it
reduces definitionally. -/
def strEndsWith (s suffix : String) : Bool := suffix.data.isSuffixOf s.data

/-- JS `String.prototype.startsWith`, character-list based. -/
def strStartsWith (s pre : String) : Bool := pre.data.isPrefixOf s.data

/-- A JS whitespace character (the ones relevant here). -/
def isWsChar (c : Char) : Bool := c = ' ' || c = '\t' || c = '\n' || c = '\r'

/-- JS `String.prototype.trim`, character-list based. -/
def strTrim (s : String) : String :=
  String.mk (((s.data.dropWhile isWsChar).reverse.dropWhile isWsChar).reverse)

/-- ASCII lower-casing, model of `String.prototype.toLowerCase` for the
inputs considered. -/
def strToLower (s : String) : String := String.mk (s.data.map Char.toLower)

/-- Split on a single-character separator (model of `split`/`splitOn`
for the separators used by the tools). -/
def splitOnCharAux (c : Char) : List Char → List Char → List String
  | [], acc => [String.mk acc.reverse]
  | d :: rest, acc =>
    if d = c then String.mk acc.reverse :: splitOnCharAux c rest []
    else splitOnCharAux c rest (d :: acc)

/-- Split a string on a single-character separator. -/
def splitOnChar (c : Char) (s : String) : List String := splitOnCharAux c s.data []

/-- Parse the body of a JSON string literal (after the opening quote),
with the usual escapes.  `\u` escapes are not modelled; none of the
strings handled by this repository use them. -/
def parseStringBody : List Char → List Char → Option (String × List Char)
  | [], _ => none
  | c :: rest, acc =>
    if c = quoteChar then some (String.mk acc.reverse, rest)
    else if c = backslashChar then
      match rest with
      | [] => none
      | e :: rest2 =>
        if e = quoteChar then parseStringBody rest2 (quoteChar :: acc)
        else if e = backslashChar then parseStringBody rest2 (backslashChar :: acc)
        else if e = '/' then parseStringBody rest2 ('/' :: acc)
        else if e = 'n' then parseStringBody rest2 ('\n' :: acc)
        else if e = 't' then parseStringBody rest2 ('\t' :: acc)
        else if e = 'r' then parseStringBody rest2 ('\r' :: acc)
        else if e = 'b' then parseStringBody rest2 (Char.ofNat 8 :: acc)
        else if e = 'f' then parseStringBody rest2 (Char.ofNat 12 :: acc)
        else none
    else parseStringBody rest (c :: acc)

/-- Digits of a decimal number as a natural number. -/
def digitsToNat (ds : List Char) : Nat :=
  ds.foldl (fun n c => n * 10 + (c.toNat - 48)) 0

/-- Parse an optional fractional part; returns whether one was present. -/
def parseFracPart (cs : List Char) : Option (Bool × List Char) :=
  match cs with
  | c :: rest =>
    if c = '.' then
      let p := rest.span (·.isDigit)
      if p.1.isEmpty then none else some (true, p.2)
    else some (false, cs)
  | [] => some (false, [])

/-- Parse an optional exponent part; returns whether one was present. -/
def parseExpPart (cs : List Char) : Option (Bool × List Char) :=
  match cs with
  | c :: rest =>
    if c = 'e' ∨ c = 'E' then
      let rest2 := match rest with
        | d :: r => if d = '+' ∨ d = '-' then r else rest
        | [] => []
      let p := rest2.span (·.isDigit)
      if p.1.isEmpty then none else some (true, p.2)
    else some (false, cs)
  | [] => some (false, [])

/-- Parse a JSON number.  The stored integer is the integral part (with
sign); `isInt` records whether the literal had no fraction/exponent. -/
def parseNumber (cs : List Char) : Option (Json × List Char) := do
  let (neg, cs1) :=
    match cs with
    | c :: rest => if c = '-' then (true, rest) else (false, cs)
    | [] => (false, ([] : List Char))
  let p := cs1.span (·.isDigit)
  if p.1.isEmpty then none
  else do
    let (sawFrac, cs2) ← parseFracPart p.2
    let (sawExp, cs3) ← parseExpPart cs2
    let v : Int := Int.ofNat (digitsToNat p.1)
    pure (Json.num (!sawFrac && !sawExp) (if neg then -v else v), cs3)

/-- Field-list extension with JavaScript object semantics: a duplicate key
keeps the position of the first occurrence and the value of the last. -/
def objCons (k : String) (v : Json) (fs : List (String × Json)) : List (String × Json) :=
  match fs.find? (fun p => p.1 = k) with
  | some p => (k, p.2) :: fs.filter (fun q => ¬ q.1 = k)
  | none => (k, v) :: fs

mutual

/-- Recursive-descent JSON value parser (model of `JSON.parse`), with
fuel to make the recursion structural; `jsonParse` supplies enough fuel
that it never runs out on well-formed input. -/
def parseValue : Nat → List Char → Option (Json × List Char)
  | 0, _ => none
  | Nat.succ fuel, cs =>
    match skipWs cs with
    | [] => none
    | c :: rest =>
      if c = quoteChar then (parseStringBody rest []).map (fun p => (Json.str p.1, p.2))
      else if c = '[' then
        match skipWs rest with
        | d :: rest2 =>
          if d = ']' then some (Json.arr [], rest2)
          else (parseItems fuel (d :: rest2)).map (fun p => (Json.arr p.1, p.2))
        | [] => none
      else if c = lbraceChar then
        match skipWs rest with
        | d :: rest2 =>
          if d = rbraceChar then some (Json.obj [], rest2)
          else (parseFields fuel (d :: rest2)).map (fun p => (Json.obj p.1, p.2))
        | [] => none
      else if c = 'n' then
        match rest with
        | 'u' :: 'l' :: 'l' :: r => some (Json.null, r)
        | _ => none
      else if c = 't' then
        match rest with
        | 'r' :: 'u' :: 'e' :: r => some (Json.bool true, r)
        | _ => none
      else if c = 'f' then
        match rest with
        | 'a' :: 'l' :: 's' :: 'e' :: r => some (Json.bool false, r)
        | _ => none
      else if c = '-' ∨ c.isDigit then parseNumber (c :: rest)
      else none

/-- Parse the comma-separated items of a non-empty JSON array. -/
def parseItems : Nat → List Char → Option (List Json × List Char)
  | 0, _ => none
  | Nat.succ fuel, cs => do
    let (v, r) ← parseValue fuel cs
    match skipWs r with
    | c :: r2 =>
      if c = ',' then do
        let (vs, r3) ← parseItems fuel r2
        pure (v :: vs, r3)
      else if c = ']' then pure ([v], r2)
      else none
    | [] => none

/-- Parse the comma-separated fields of a non-empty JSON object. -/
def parseFields : Nat → List Char → Option (List (String × Json) × List Char)
  | 0, _ => none
  | Nat.succ fuel, cs =>
    match skipWs cs with
    | c :: rest =>
      if c = quoteChar then
        match parseStringBody rest [] with
        | none => none
        | some (k, r) =>
          match skipWs r with
          | d :: r2 =>
            if d = ':' then
              match parseValue fuel r2 with
              | none => none
              | some (v, r3) =>
                match skipWs r3 with
                | e :: r4 =>
                  if e = ',' then
                    match parseFields fuel r4 with
                    | none => none
                    | some (fs, r5) => some (objCons k v fs, r5)
                  else if e = rbraceChar then some ([(k, v)], r4)
                  else none
                | [] => none
            else none
          | [] => none
      else none
    | [] => none

end

/-- Model of `JSON.parse`: parses the whole string (trailing whitespace
allowed) or fails. -/
def jsonParse (s : String) : Option Json :=
  match parseValue (2 * s.length + 4) s.data with
  | some (v, rest) => if (skipWs rest).isEmpty then some v else none
  | none => none

/-! ## JSON serialization (model of `JSON.stringify`) -/

/-- Escape one character for a JSON string literal. -/
def escChar (c : Char) : String :=
  if c = quoteChar then String.mk [backslashChar, quoteChar]
  else if c = backslashChar then String.mk [backslashChar, backslashChar]
  else if c = '\n' then String.mk [backslashChar, 'n']
  else if c = '\t' then String.mk [backslashChar, 't']
  else if c = '\r' then String.mk [backslashChar, 'r']
  else if c = Char.ofNat 8 then String.mk [backslashChar, 'b']
  else if c = Char.ofNat 12 then String.mk [backslashChar, 'f']
  else String.singleton c

/-- A JSON string literal for `s`. -/
def quoteStr (s : String) : String :=
  "\"" ++ String.join (s.data.map escChar) ++ "\""

mutual

/-- Compact serialization, model of `JSON.stringify(x)`. -/
def jsonStringify : Json → String
  | Json.null => "null"
  | Json.bool true => "true"
  | Json.bool false => "false"
  | Json.num _ v => toString v
  | Json.str s => quoteStr s
  | Json.arr xs => "[" ++ stringifyList xs ++ "]"
  | Json.obj fs => "\x7b" ++ stringifyFields fs ++ "\x7d"

/-- Compact serialization of array elements. -/
def stringifyList : List Json → String
  | [] => ""
  | [x] => jsonStringify x
  | x :: y :: ys => jsonStringify x ++ "," ++ stringifyList (y :: ys)

/-- Compact serialization of object fields. -/
def stringifyFields : List (String × Json) → String
  | [] => ""
  | [(k, v)] => quoteStr k ++ ":" ++ jsonStringify v
  | (k, v) :: f :: fs => quoteStr k ++ ":" ++ jsonStringify v ++ "," ++ stringifyFields (f :: fs)

end

/-- `n` spaces. -/
def spaces (n : Nat) : String := String.mk (List.replicate n ' ')

mutual

/-- Pretty serialization at indentation `ind`, model of
`JSON.stringify(x, null, 2)`. -/
def jsonStringifyPrettyAux (ind : Nat) : Json → String
  | Json.arr [] => "[]"
  | Json.arr (x :: xs) =>
      "[\n" ++ prettyList (ind + 2) (x :: xs) ++ "\n" ++ spaces ind ++ "]"
  | Json.obj [] => "\x7b\x7d"
  | Json.obj (f :: fs) =>
      "\x7b\n" ++ prettyFields (ind + 2) (f :: fs) ++ "\n" ++ spaces ind ++ "\x7d"
  | Json.null => "null"
  | Json.bool true => "true"
  | Json.bool false => "false"
  | Json.num _ v => toString v
  | Json.str s => quoteStr s

/-- Pretty serialization of array elements, one per line. -/
def prettyList (ind : Nat) : List Json → String
  | [] => ""
  | [x] => spaces ind ++ jsonStringifyPrettyAux ind x
  | x :: y :: ys =>
      spaces ind ++ jsonStringifyPrettyAux ind x ++ ",\n" ++ prettyList ind (y :: ys)

/-- Pretty serialization of object fields, one per line. -/
def prettyFields (ind : Nat) : List (String × Json) → String
  | [] => ""
  | [(k, v)] => spaces ind ++ quoteStr k ++ ": " ++ jsonStringifyPrettyAux ind v
  | (k, v) :: f :: fs =>
      spaces ind ++ quoteStr k ++ ": " ++ jsonStringifyPrettyAux ind v ++ ",\n" ++
        prettyFields ind (f :: fs)

end

/-- Model of `JSON.stringify(x, null, 2)`. -/
def jsonStringify2 (j : Json) : String := jsonStringifyPrettyAux 0 j

/-! ## Canvas schema validator

Embedding of `src/utils/canvas-schema.ts`.  A zod schema applied to a
parsed JSON value is modelled as a function collecting the list of
issues, each a `(field path, message)` pair; `safeParse` succeeds and
`parse` does not throw exactly when this list is empty. -/

/-- One segment of a zod issue path: an object key or an array index. -/
inductive PathSeg where
  | key (s : String) : PathSeg
  | idx (n : Nat) : PathSeg
deriving Repr, DecidableEq

/-- A zod issue: field path plus human-readable message. -/
abbrev Issue := List PathSeg × String

/-- The zod "received" type name of a JSON value. -/
def typeName : Json → String
  | Json.null => "null"
  | Json.bool _ => "boolean"
  | Json.num _ _ => "number"
  | Json.str _ => "string"
  | Json.arr _ => "array"
  | Json.obj _ => "object"

/-- zod `invalid_type` message. -/
def expectedMsg (want : String) (v : Json) : String :=
  "Expected " ++ want ++ ", received " ++ typeName v

/-- Look up an object field (first occurrence). -/
def lookupField (fields : List (String × Json)) (k : String) : Option Json :=
  match fields with
  | [] => none
  | p :: t => if p.1 = k then some p.2 else lookupField t k

/-- Validate one declared object field: a missing required field yields
`Required`; a present field is checked by `check`, whose messages are
reported at the field's path. -/
def checkField (path : List PathSeg) (fields : List (String × Json)) (k : String)
    (required : Bool) (check : Json → List String) : List Issue :=
  match lookupField fields k with
  | none => if required then [(path ++ [PathSeg.key k], "Required")] else []
  | some v => (check v).map (fun m => (path ++ [PathSeg.key k], m))

/-- The keys of `fields` that are not in `allowed`. -/
def unknownKeys (fields : List (String × Json)) (allowed : List String) : List String :=
  (fields.map (fun p => p.1)).filter (fun k => !allowed.contains k)

/-- zod default `unrecognized_keys` message. -/
def unrecognizedMsg (ks : List String) : String :=
  "Unrecognized key(s) in object: " ++
    String.intercalate ", " (ks.map (fun k => "\x27" ++ k ++ "\x27"))

/-- The `.strict()` check of a zod object schema: one issue at the
object's own path when unknown keys are present, with the custom message
when one was supplied. -/
def strictIssues (path : List PathSeg) (fields : List (String × Json))
    (allowed : List String) (custom : Option String) : List Issue :=
  match unknownKeys fields allowed with
  | [] => []
  | ks => [(path, match custom with | some m => m | none => unrecognizedMsg ks)]

/-- `z.string()`. -/
def checkString : Json → List String
  | Json.str _ => []
  | v => [expectedMsg "string" v]

/-- `z.string().min(1)`. -/
def checkStringMin1 : Json → List String
  | Json.str s => if 1 ≤ s.length then [] else ["String must contain at least 1 character(s)"]
  | v => [expectedMsg "string" v]

/-- `z.number().int()`. -/
def checkInt : Json → List String
  | Json.num true _ => []
  | Json.num false _ => ["Expected integer, received float"]
  | v => [expectedMsg "number" v]

/-- `z.number().int().positive()`. -/
def checkPosInt : Json → List String
  | Json.num true n => if 0 < n then [] else ["Number must be greater than 0"]
  | Json.num false _ => ["Expected integer, received float"]
  | v => [expectedMsg "number" v]

/-- The six preset color tokens. -/
def presetColors : List String := ["1", "2", "3", "4", "5", "6"]

/-- The regex `^#[0-9A-Fa-f]\x7b6\x7d$` of `canvasColorSchema`. -/
def isHexColor (s : String) : Bool :=
  match s.data with
  | c :: rest =>
    c = '#' && rest.length == 6 &&
      rest.all (fun d => d.isDigit || ('a' ≤ d && d ≤ 'f') || ('A' ≤ d && d ≤ 'F'))
  | [] => false

/-- `canvasColorSchema`: preset token or hex color; a zod union that
fails yields the single `invalid_union` message `Invalid input`. -/
def checkColor : Json → List String
  | Json.str s => if presetColors.contains s || isHexColor s then [] else ["Invalid input"]
  | _ => ["Invalid input"]

/-- zod `invalid_enum_value` message. -/
def enumMsg (opts : List String) (got : String) : String :=
  "Invalid enum value. Expected " ++
    String.intercalate " | " (opts.map (fun o => "\x27" ++ o ++ "\x27")) ++
    ", received \x27" ++ got ++ "\x27"

/-- `z.enum(opts)`. -/
def checkEnum (opts : List String) : Json → List String
  | Json.str s => if opts.contains s then [] else [enumMsg opts s]
  | v =>
    ["Expected " ++ String.intercalate " | " (opts.map (fun o => "\x27" ++ o ++ "\x27")) ++
      ", received " ++ typeName v]

/-- `z.string().startsWith("#")`. -/
def checkSubpath : Json → List String
  | Json.str s => if strStartsWith s "#" then [] else ["Invalid input: must start with \"#\""]
  | v => [expectedMsg "string" v]

/-- Left part of a string before the first `://`, if any. -/
def urlSchemeSplit : List Char → List Char → Option (List Char)
  | ':' :: '/' :: '/' :: _, acc => some acc.reverse
  | c :: rest, acc => urlSchemeSplit rest (c :: acc)
  | [], _ => none

/-- Simplified model of WHATWG URL acceptance as used by
`z.string().url()`: a non-empty alphabetic scheme followed by `://` and
arbitrary remainder.  The claims never hinge on URL-parsing corner
cases. -/
def isValidUrl (s : String) : Bool :=
  match urlSchemeSplit s.data [] with
  | some scheme => !scheme.isEmpty && scheme.all Char.isAlpha
  | none => false

/-- `z.string().url()`. -/
def checkUrl : Json → List String
  | Json.str s => if isValidUrl s then [] else ["Invalid url"]
  | v => [expectedMsg "string" v]

/-- Shared generic node attributes (`genericNodeSchema`). -/
def baseChecks (path : List PathSeg) (fields : List (String × Json)) : List Issue :=
  checkField path fields "id" true checkStringMin1 ++
  checkField path fields "x" true checkInt ++
  checkField path fields "y" true checkInt ++
  checkField path fields "width" true checkPosInt ++
  checkField path fields "height" true checkPosInt ++
  checkField path fields "color" false checkColor

/-- Recognized keys of a `text` node. -/
def textAllowed : List String := ["id", "x", "y", "width", "height", "color", "type", "text"]

/-- Recognized keys of a `file` node. -/
def fileAllowed : List String :=
  ["id", "x", "y", "width", "height", "color", "type", "file", "subpath"]

/-- Recognized keys of a `link` node. -/
def linkAllowed : List String := ["id", "x", "y", "width", "height", "color", "type", "url"]

/-- Recognized keys of a `group` node. -/
def groupAllowed : List String :=
  ["id", "x", "y", "width", "height", "color", "type", "label", "background", "backgroundStyle"]

/-- zod `invalid_union_discriminator`-style message of `nodeSchema`. -/
def discriminatorMsg : String :=
  "Invalid discriminator value. Expected \x27text\x27 | \x27file\x27 | \x27link\x27 | \x27group\x27"

/-- `backgroundStyle` options. -/
def bgStyles : List String := ["cover", "ratio", "repeat"]

/-- `nodeSchema`: discriminated union over `type` of the four strict
node variants. -/
def nodeIssues (path : List PathSeg) (j : Json) : List Issue :=
  match j with
  | Json.obj fields =>
    match lookupField fields "type" with
    | some (Json.str t) =>
      if t = "text" then
        baseChecks path fields ++ checkField path fields "text" true checkString ++
          strictIssues path fields textAllowed none
      else if t = "file" then
        baseChecks path fields ++ checkField path fields "file" true checkStringMin1 ++
          checkField path fields "subpath" false checkSubpath ++
          strictIssues path fields fileAllowed none
      else if t = "link" then
        baseChecks path fields ++ checkField path fields "url" true checkUrl ++
          strictIssues path fields linkAllowed none
      else if t = "group" then
        baseChecks path fields ++ checkField path fields "label" false checkString ++
          checkField path fields "background" false checkString ++
          checkField path fields "backgroundStyle" false (checkEnum bgStyles) ++
          strictIssues path fields groupAllowed none
      else [(path ++ [PathSeg.key "type"], discriminatorMsg)]
    | some _ => [(path ++ [PathSeg.key "type"], discriminatorMsg)]
    | none => [(path ++ [PathSeg.key "type"], discriminatorMsg)]
  | v => [(path, expectedMsg "object" v)]

/-- Recognized keys of an edge. -/
def edgeAllowed : List String :=
  ["id", "fromNode", "fromSide", "fromEnd", "toNode", "toSide", "toEnd", "color", "label"]

/-- Edge side options. -/
def sideOpts : List String := ["top", "right", "bottom", "left"]

/-- Edge endpoint options. -/
def endOpts : List String := ["none", "arrow"]

/-- `edgeSchema`. -/
def edgeIssues (path : List PathSeg) (j : Json) : List Issue :=
  match j with
  | Json.obj fields =>
    checkField path fields "id" true checkStringMin1 ++
    checkField path fields "fromNode" true checkStringMin1 ++
    checkField path fields "fromSide" false (checkEnum sideOpts) ++
    checkField path fields "fromEnd" false (checkEnum endOpts) ++
    checkField path fields "toNode" true checkStringMin1 ++
    checkField path fields "toSide" false (checkEnum sideOpts) ++
    checkField path fields "toEnd" false (checkEnum endOpts) ++
    checkField path fields "color" false checkColor ++
    checkField path fields "label" false checkString ++
    strictIssues path fields edgeAllowed none
  | v => [(path, expectedMsg "object" v)]

/-- `z.array(elem)`: element issues reported at indexed paths. -/
def arrayIssues (path : List PathSeg) (f : List PathSeg → Json → List Issue) :
    Nat → List Json → List Issue
  | _, [] => []
  | i, x :: xs => f (path ++ [PathSeg.idx i]) x ++ arrayIssues path f (i + 1) xs

/-- The custom `.strict` message of the top-level `canvasSchema`. -/
def topMsg : String :=
  "Canvas object must only contain \x27nodes\x27 and \x27edges\x27 properties"

/-- `canvasSchema`: optional `nodes`/`edges` arrays, strict at every
level.  The issue list is empty exactly when `safeParse` succeeds. -/
def canvasSchemaIssues (j : Json) : List Issue :=
  match j with
  | Json.obj fields =>
    strictIssues [] fields ["nodes", "edges"] (some topMsg) ++
    (match lookupField fields "nodes" with
     | none => []
     | some (Json.arr xs) => arrayIssues [PathSeg.key "nodes"] nodeIssues 0 xs
     | some v => [([PathSeg.key "nodes"], expectedMsg "array" v)]) ++
    (match lookupField fields "edges" with
     | none => []
     | some (Json.arr xs) => arrayIssues [PathSeg.key "edges"] edgeIssues 0 xs
     | some v => [([PathSeg.key "edges"], expectedMsg "array" v)])
  | v => [([], expectedMsg "object" v)]

/-- `canvasSchema.safeParse(j).success`. -/
def canvasSafeParseSuccess (j : Json) : Bool := (canvasSchemaIssues j).isEmpty

/-- A path rendered as in the tools' error messages (`path.join(".")`). -/
def pathJoin (p : List PathSeg) : String :=
  String.intercalate "." (p.map (fun s => match s with
    | PathSeg.key k => k
    | PathSeg.idx n => toString n))

/-- The `Invalid canvas JSON structure: ...` message built by
`create-canvas` and `edit-canvas` from a zod error. -/
def zodErrorMessage (issues : List Issue) : String :=
  "Invalid canvas JSON structure: " ++
    String.intercalate ", " (issues.map (fun i => pathJoin i.1 ++ ": " ++ i.2))

/-! ## Spec-side conformance predicate (§3 data model)

These definitions follow the specification's words for the canvas data
model, to be compared with the source-derived validator above (claim C5
is a refinement claim).  The color and URL value sets reuse the shared
string predicates, which both sides denote identically. -/

/-- A field either absent (if optional) or present satisfying `pred`. -/
def fieldOk (fields : List (String × Json)) (k : String) (required : Bool)
    (pred : Json → Bool) : Bool :=
  match lookupField fields k with
  | none => !required
  | some v => pred v

/-- All keys of `fields` lie in `allowed` (closed-schema invariant). -/
def keysAllowed (fields : List (String × Json)) (allowed : List String) : Bool :=
  (fields.map (fun p => p.1)).all (fun k => allowed.contains k)

/-- Spec: a markdown/plain string. -/
def specStr : Json → Bool
  | Json.str _ => true
  | _ => false

/-- Spec: a non-empty string. -/
def specStr1 : Json → Bool
  | Json.str s => decide (1 ≤ s.length)
  | _ => false

/-- Spec: an integer. -/
def specInt : Json → Bool
  | Json.num isInt _ => isInt
  | _ => false

/-- Spec: a positive integer. -/
def specPosInt : Json → Bool
  | Json.num isInt n => isInt && decide (0 < n)
  | _ => false

/-- Spec: preset token `"1".."6"` or hex color string. -/
def specColor : Json → Bool
  | Json.str s => presetColors.contains s || isHexColor s
  | _ => false

/-- Spec: a string starting with `#`. -/
def specSubpath : Json → Bool
  | Json.str s => strStartsWith s "#"
  | _ => false

/-- Spec: a valid URL string. -/
def specUrl : Json → Bool
  | Json.str s => isValidUrl s
  | _ => false

/-- Spec: a string drawn from an enumerated option list. -/
def specEnum (opts : List String) : Json → Bool
  | Json.str s => opts.contains s
  | _ => false

/-- Spec §3: a node is a tagged variant with the shared base attributes
plus variant fields, and no unknown keys. -/
def specConformsNode (j : Json) : Bool :=
  match j with
  | Json.obj fields =>
    (fieldOk fields "id" true specStr1 &&
     fieldOk fields "x" true specInt &&
     fieldOk fields "y" true specInt &&
     fieldOk fields "width" true specPosInt &&
     fieldOk fields "height" true specPosInt &&
     fieldOk fields "color" false specColor) &&
    (match lookupField fields "type" with
     | some (Json.str t) =>
       if t = "text" then
         fieldOk fields "text" true specStr && keysAllowed fields textAllowed
       else if t = "file" then
         fieldOk fields "file" true specStr1 && fieldOk fields "subpath" false specSubpath &&
           keysAllowed fields fileAllowed
       else if t = "link" then
         fieldOk fields "url" true specUrl && keysAllowed fields linkAllowed
       else if t = "group" then
         fieldOk fields "label" false specStr && fieldOk fields "background" false specStr &&
           fieldOk fields "backgroundStyle" false (specEnum bgStyles) &&
           keysAllowed fields groupAllowed
       else false
     | some _ => false
     | none => false)
  | _ => false

/-- Spec §3: an edge. -/
def specConformsEdge (j : Json) : Bool :=
  match j with
  | Json.obj fields =>
    fieldOk fields "id" true specStr1 &&
    fieldOk fields "fromNode" true specStr1 &&
    fieldOk fields "fromSide" false (specEnum sideOpts) &&
    fieldOk fields "fromEnd" false (specEnum endOpts) &&
    fieldOk fields "toNode" true specStr1 &&
    fieldOk fields "toSide" false (specEnum sideOpts) &&
    fieldOk fields "toEnd" false (specEnum endOpts) &&
    fieldOk fields "color" false specColor &&
    fieldOk fields "label" false specStr &&
    keysAllowed fields edgeAllowed
  | _ => false

/-- Spec §3: a canvas document is a JSON object with two optional
sequences `nodes` and `edges` and no other top-level keys. -/
def specConformsCanvas (j : Json) : Bool :=
  match j with
  | Json.obj fields =>
    keysAllowed fields ["nodes", "edges"] &&
    (match lookupField fields "nodes" with
     | none => true
     | some (Json.arr xs) => xs.all specConformsNode
     | some _ => false) &&
    (match lookupField fields "edges" with
     | none => true
     | some (Json.arr xs) => xs.all specConformsEdge
     | some _ => false)
  | _ => false

/-! ## Filesystem and error model

The filesystem visible to one tool call is a finite map from absolute
path strings to file contents, as an association list, plus the set of
created directories.  Fallible `fs` primitives are modelled by explicit
fault flags (one per call site): a failed call throws a raw error and
leaves the state unchanged (the simulated I/O error of §8). -/

/-- Set a key in an association list (overwrite in place or append). -/
def assocSet (l : List (String × String)) (k v : String) : List (String × String) :=
  match l with
  | [] => [(k, v)]
  | p :: t => if p.1 = k then (k, v) :: t else p :: assocSet t k v

/-- Look up a key in an association list. -/
def assocGet (l : List (String × String)) (k : String) : Option String :=
  match l with
  | [] => none
  | p :: t => if p.1 = k then some p.2 else assocGet t k

/-- Remove a key from an association list. -/
def assocErase (l : List (String × String)) (k : String) : List (String × String) :=
  l.filter (fun p => !(p.1 = k))

/-- Filesystem state. -/
structure Fs where
  files : List (String × String)
  dirs : List String
deriving Repr, DecidableEq

/-- Content of a file (`fs.readFile`), when it exists. -/
def fsRead (fs : Fs) (p : String) : Option String := assocGet fs.files p

/-- Modelled from the spec: `fileExists` of `utils/files.js` (out of
`src/`); true when the path denotes an existing file. -/
def fileExists (fs : Fs) (p : String) : Bool := (fsRead fs p).isSome

/-- `fs.writeFile` (create or overwrite). -/
def fsWrite (fs : Fs) (p c : String) : Fs := { fs with files := assocSet fs.files p c }

/-- `fs.unlink`. -/
def fsErase (fs : Fs) (p : String) : Fs := { fs with files := assocErase fs.files p }

/-- Modelled from the spec: `ensureDirectory` of `utils/files.js`
(creates the directory and intermediate parents; idempotent). -/
def ensureDirectory (fs : Fs) (d : String) : Fs :=
  { fs with dirs := if fs.dirs.contains d then fs.dirs else fs.dirs ++ [d] }

/-- Error kinds surfaced by the tools (spec §7). -/
inductive ErrKind where
  | invalidRequest : ErrKind
  | invalidParams : ErrKind
  | internalError : ErrKind
  | notFound : ErrKind
  | alreadyExists : ErrKind
  | pathEscape : ErrKind
  | fsFailure : ErrKind
deriving Repr, DecidableEq

/-- A thrown JavaScript error: either a typed `McpError` or a raw
filesystem error (the only two shapes the tools distinguish, via
`instanceof McpError`). -/
inductive JsErr where
  | mcp (kind : ErrKind) (msg : String) : JsErr
  | raw (msg : String) : JsErr
deriving Repr, DecidableEq

/-- The `message` of an error. -/
def errMsg : JsErr → String
  | JsErr.mcp _ m => m
  | JsErr.raw m => m

/-- Modelled from the spec: `handleFsError` of `utils/errors.js` wraps a
raw storage error with operation context (§7 `FsFailure`); the tools
only call it on non-`McpError` values. -/
def handleFsError (e : JsErr) (op : String) : JsErr :=
  match e with
  | JsErr.raw m => JsErr.mcp ErrKind.fsFailure ("Failed to " ++ op ++ ": " ++ m)
  | e => e

/-- Modelled from the spec: `createCanvasNotFoundError` (§7 `NotFound`). -/
def createCanvasNotFoundError (name : String) : JsErr :=
  JsErr.mcp ErrKind.notFound ("Canvas not found: " ++ name)

/-- Modelled from the spec: `createNoteNotFoundError` (§7 `NotFound`). -/
def createNoteNotFoundError (name : String) : JsErr :=
  JsErr.mcp ErrKind.notFound ("Note not found: " ++ name)

/-- Modelled from the spec: `createCanvasExistsError` (§7 `AlreadyExists`). -/
def createCanvasExistsError (p : String) : JsErr :=
  JsErr.mcp ErrKind.alreadyExists ("Canvas already exists: " ++ p)

/-- Modelled from the spec: `createInvalidJsonError` (§7 `InvalidParams`). -/
def createInvalidJsonError (name msg : String) : JsErr :=
  JsErr.mcp ErrKind.invalidParams ("Invalid JSON in " ++ name ++ ": " ++ msg)

/-- Model of `path.join` for the in-vault segments used by the tools. -/
def joinPath (a b : String) : String := a ++ "/" ++ b

/-- Modelled from the spec: `ensureCanvasExtension` of `utils/path.js`
(§6: filenames are auto-suffixed with the expected extension). -/
def ensureCanvasExtension (name : String) : String :=
  if strEndsWith name ".canvas" then name else name ++ ".canvas"

/-- Modelled from the spec: `ensureMarkdownExtension` of `utils/path.js`. -/
def ensureMarkdownExtension (name : String) : String :=
  if strEndsWith name ".md" then name else name ++ ".md"

/-- Modelled from the spec: the §4.1 path guard applied to an
already-joined path — the resolved path must stay at or below the vault
root.  The claims below only use non-escaping paths, for which the join
construction makes this check succeed. -/
def validateVaultPath (root p : String) : Bool := (root ++ "/").data.isPrefixOf p.data

/-- The `FileOperationResult` record of `types.ts`. -/
structure FileOpResult where
  success : Bool
  message : String
  path : String
  operation : String
deriving Repr, DecidableEq

/-! ## edit-canvas (`src/tools/edit-canvas/index.ts`) -/

/-- Fault pattern for one `editCanvas` call: which `fs` primitive call
sites fail. -/
structure CanvasEditFaults where
  snapshotFails : Bool
  writeFails : Bool
  successUnlinkFails : Bool
  rbCopyFails : Bool
  rbUnlinkFails : Bool
  outerUnlinkFails : Bool
deriving Repr, DecidableEq

/-- The all-succeed fault pattern. -/
def noCanvasFaults : CanvasEditFaults := ⟨false, false, false, false, false, false⟩

/-- The outer `catch` of `editCanvas` (lines 127-143): best-effort
removal of a still-existing backup, then rethrow (wrapping raw errors). -/
def editCanvasOuterCatch (fs : Fs) (backupPath : String) (f : CanvasEditFaults) (e : JsErr) :
    Except JsErr FileOpResult × Fs :=
  let fs1 :=
    if fileExists fs backupPath then
      if f.outerUnlinkFails then fs else fsErase fs backupPath
    else fs
  match e with
  | JsErr.raw _ => (Except.error (handleFsError e "edit canvas"), fs1)
  | _ => (Except.error e, fs1)

/-- The `InternalError` raised when rollback fails (lines 118-121). -/
def canvasRollbackFailMsg (writeErr rollbackErr : JsErr) (backupPath : String) : String :=
  "Failed to rollback canvas changes after write error. Original error: " ++ errMsg writeErr ++
    ". Rollback error: " ++ errMsg rollbackErr ++ ". Backup file preserved at " ++ backupPath

/-- The inner write-error `catch` of `editCanvas` (lines 106-125):
restore from backup, remove the backup, rethrow the write error; a
failed restore raises the `InternalError`. -/
def editCanvasWriteCatch (fs : Fs) (fullPath backupPath : String) (f : CanvasEditFaults)
    (writeErr : JsErr) : Except JsErr FileOpResult × Fs :=
  if fileExists fs backupPath then
    if f.rbCopyFails then
      editCanvasOuterCatch fs backupPath f
        (JsErr.mcp ErrKind.internalError
          (canvasRollbackFailMsg writeErr (JsErr.raw "EIO: copyFile failed") backupPath))
    else
      let fs1 := fsWrite fs fullPath ((fsRead fs backupPath).getD "")
      if f.rbUnlinkFails then
        editCanvasOuterCatch fs1 backupPath f
          (JsErr.mcp ErrKind.internalError
            (canvasRollbackFailMsg writeErr (JsErr.raw "EIO: unlink failed") backupPath))
      else editCanvasOuterCatch (fsErase fs1 backupPath) backupPath f writeErr
  else editCanvasOuterCatch fs backupPath f writeErr

/-- `editCanvas` (replace-only canvas edit with backup/rollback). -/
def editCanvas (fs : Fs) (vaultPath filename content : String) (folder : Option String)
    (timestamp : String) (f : CanvasEditFaults) : Except JsErr FileOpResult × Fs :=
  let sanitizedFilename := ensureCanvasExtension filename
  let fullPath :=
    match folder with
    | some fo => joinPath (joinPath vaultPath fo) sanitizedFilename
    | none => joinPath vaultPath sanitizedFilename
  if !validateVaultPath vaultPath fullPath then
    (Except.error (JsErr.mcp ErrKind.pathEscape "Path escapes vault root"), fs)
  else
    let backupPath := fullPath ++ "." ++ timestamp ++ ".backup"
    if !fileExists fs fullPath then
      editCanvasOuterCatch fs backupPath f (createCanvasNotFoundError sanitizedFilename)
    else
      match jsonParse content with
      | none =>
        editCanvasOuterCatch fs backupPath f
          (createInvalidJsonError sanitizedFilename "Unknown JSON parsing error")
      | some parsed =>
        let issues := canvasSchemaIssues parsed
        if issues.isEmpty then
          if f.snapshotFails then
            editCanvasOuterCatch fs backupPath f (JsErr.raw "EIO: copyFile failed")
          else
            let fs1 := fsWrite fs backupPath ((fsRead fs fullPath).getD "")
            if f.writeFails then
              editCanvasWriteCatch fs1 fullPath backupPath f (JsErr.raw "EIO: writeFile failed")
            else
              let fs2 := fsWrite fs1 fullPath content
              if f.successUnlinkFails then
                editCanvasWriteCatch fs2 fullPath backupPath f (JsErr.raw "EIO: unlink failed")
              else
                (Except.ok ⟨true, "Canvas replaced successfully", fullPath, "edit"⟩,
                  fsErase fs2 backupPath)
        else
          editCanvasOuterCatch fs backupPath f
            (JsErr.mcp ErrKind.invalidParams (zodErrorMessage issues))

/-! ## edit-note (`src/tools/edit-note/index.ts`) -/

/-- Edit operations of the edit-note tool. -/
inductive EditOp where
  | append : EditOp
  | prepend : EditOp
  | replace : EditOp
  | delete : EditOp
deriving Repr, DecidableEq

/-- The operation's name as used in messages. -/
def opString : EditOp → String
  | EditOp.append => "append"
  | EditOp.prepend => "prepend"
  | EditOp.replace => "replace"
  | EditOp.delete => "delete"

/-- Fault pattern for one `editNote` call. -/
structure NoteEditFaults where
  snapshotFails : Bool
  readFails : Bool
  writeFails : Bool
  successUnlinkFails : Bool
  rbCopyFails : Bool
  rbUnlinkFails : Bool
  outerCopyFails : Bool
  outerUnlinkFails : Bool
  deleteSnapshotFails : Bool
  deleteUnlinkFails : Bool
deriving Repr, DecidableEq

/-- The all-succeed fault pattern. -/
def noNoteFaults : NoteEditFaults :=
  ⟨false, false, false, false, false, false, false, false, false, false⟩

/-- The new note content for an operation (lines 126-134), with JS
string-truthiness of the trimmed existing content made explicit. -/
def editNoteNewContent (op : EditOp) (existing content : String) : String :=
  match op with
  | EditOp.append =>
    strTrim existing ++ (if strTrim existing = "" then "" else "\n\n") ++ content
  | EditOp.prepend =>
    content ++ (if strTrim existing = "" then "" else "\n\n") ++ strTrim existing
  | _ => content

/-- The outer `catch` of `editNote` (lines 176-192): if a backup still
exists, try to restore it over the target and remove it (failures only
logged), then rethrow (wrapping raw errors). -/
def editNoteOuterCatch (fs : Fs) (fullPath backupPath : String) (f : NoteEditFaults)
    (opName : String) (e : JsErr) : Except JsErr FileOpResult × Fs :=
  let fs1 :=
    if fileExists fs backupPath then
      if f.outerCopyFails then fs
      else
        let fsA := fsWrite fs fullPath ((fsRead fs backupPath).getD "")
        if f.outerUnlinkFails then fsA else fsErase fsA backupPath
    else fs
  match e with
  | JsErr.raw _ => (Except.error (handleFsError e opName), fs1)
  | _ => (Except.error e, fs1)

/-- The `InternalError` raised when note rollback fails (lines 158-161). -/
def noteRollbackFailMsg (err rollbackErr : JsErr) (backupPath : String) : String :=
  "Failed to rollback changes. Original error: " ++ errMsg err ++
    ". Rollback error: " ++ errMsg rollbackErr ++ ". Backup file preserved at " ++ backupPath

/-- The inner error `catch` of the append/prepend/replace case
(lines 148-165). -/
def editNoteErrorCatch (fs : Fs) (fullPath backupPath : String) (f : NoteEditFaults)
    (opName : String) (err : JsErr) : Except JsErr FileOpResult × Fs :=
  if fileExists fs backupPath then
    if f.rbCopyFails then
      editNoteOuterCatch fs fullPath backupPath f opName
        (JsErr.mcp ErrKind.internalError
          (noteRollbackFailMsg err (JsErr.raw "EIO: copyFile failed") backupPath))
    else
      let fs1 := fsWrite fs fullPath ((fsRead fs backupPath).getD "")
      if f.rbUnlinkFails then
        editNoteOuterCatch fs1 fullPath backupPath f opName
          (JsErr.mcp ErrKind.internalError
            (noteRollbackFailMsg err (JsErr.raw "EIO: unlink failed") backupPath))
      else editNoteOuterCatch (fsErase fs1 backupPath) fullPath backupPath f opName err
  else editNoteOuterCatch fs fullPath backupPath f opName err

/-- The `switch` body of `editNote` (lines 85-175).  The delayed backup
cleanup scheduled by the delete case runs after the call returns and is
not part of the call's own effect on the filesystem. -/
def editNoteBody (fs : Fs) (fullPath backupPath filename : String) (operation : EditOp)
    (content : Option String) (f : NoteEditFaults) (opName : String) :
    Except JsErr FileOpResult × Fs :=
  match operation with
  | EditOp.delete =>
    if !fileExists fs fullPath then
      editNoteOuterCatch fs fullPath backupPath f opName (createNoteNotFoundError filename)
    else if f.deleteSnapshotFails then
      editNoteOuterCatch fs fullPath backupPath f opName (JsErr.raw "EIO: copyFile failed")
    else
      let fs1 := fsWrite fs backupPath ((fsRead fs fullPath).getD "")
      if f.deleteUnlinkFails then
        editNoteOuterCatch fs1 fullPath backupPath f opName (JsErr.raw "EIO: unlink failed")
      else
        (Except.ok ⟨true, "Note deleted successfully", fullPath, "delete"⟩, fsErase fs1 fullPath)
  | _ =>
    if !fileExists fs fullPath then
      editNoteOuterCatch fs fullPath backupPath f opName (createNoteNotFoundError filename)
    else if f.readFails then
      editNoteErrorCatch fs fullPath backupPath f opName (JsErr.raw "EIO: readFile failed")
    else
      let existing := (fsRead fs fullPath).getD ""
      let newContent := editNoteNewContent operation existing (content.getD "")
      if f.writeFails then
        editNoteErrorCatch fs fullPath backupPath f opName (JsErr.raw "EIO: writeFile failed")
      else
        let fs1 := fsWrite fs fullPath newContent
        if f.successUnlinkFails then
          editNoteErrorCatch fs1 fullPath backupPath f opName (JsErr.raw "EIO: unlink failed")
        else
          (Except.ok ⟨true, "Note " ++ opString operation ++ "ed successfully", fullPath, "edit"⟩,
            fsErase fs1 backupPath)

/-- `editNote`. -/
def editNote (fs : Fs) (vaultPath filename : String) (operation : EditOp)
    (content : Option String) (folder : Option String) (timestamp : String)
    (f : NoteEditFaults) : Except JsErr FileOpResult × Fs :=
  let sanitizedFilename := ensureMarkdownExtension filename
  let fullPath :=
    match folder with
    | some fo => joinPath (joinPath vaultPath fo) sanitizedFilename
    | none => joinPath vaultPath sanitizedFilename
  if !validateVaultPath vaultPath fullPath then
    (Except.error (JsErr.mcp ErrKind.pathEscape "Path escapes vault root"), fs)
  else
    let backupPath := fullPath ++ "." ++ timestamp ++ ".backup"
    let opName := opString operation ++ " note"
    if (!(operation = EditOp.delete : Bool)) && fileExists fs fullPath then
      if f.snapshotFails then
        editNoteOuterCatch fs fullPath backupPath f opName (JsErr.raw "EIO: copyFile failed")
      else
        editNoteBody (fsWrite fs backupPath ((fsRead fs fullPath).getD ""))
          fullPath backupPath filename operation content f opName
    else editNoteBody fs fullPath backupPath filename operation content f opName

/-! ## create-canvas (`src/tools/create-canvas/index.ts`, first file) -/

/-- Observable steps of a `createCanvas` call, in execution order. -/
inductive CreateEv where
  | validated : CreateEv
  | ensuredDir : CreateEv
  | existsChecked : CreateEv
  | wrote : CreateEv
deriving Repr, DecidableEq

/-- Model of `path.dirname`. -/
def dirnameStr (p : String) : String :=
  String.intercalate "/" (splitOnChar '/' p).dropLast

/-- `createCanvas`: validate payload, create parent directory, check for
an existing target, then write the original string.  The returned event
list records which steps completed, in order. -/
def createCanvas (fs : Fs) (vaultPath filename content : String) (folder : Option String) :
    Except JsErr FileOpResult × Fs × List CreateEv :=
  let sanitizedFilename := ensureCanvasExtension filename
  let canvasPath :=
    match folder with
    | some fo => joinPath (joinPath vaultPath fo) sanitizedFilename
    | none => joinPath vaultPath sanitizedFilename
  if !validateVaultPath vaultPath canvasPath then
    (Except.error (JsErr.mcp ErrKind.pathEscape "Path escapes vault root"), fs, [])
  else
    match jsonParse content with
    | none =>
      (Except.error (createInvalidJsonError sanitizedFilename "Unknown JSON parsing error"),
        fs, [])
    | some parsed =>
      let issues := canvasSchemaIssues parsed
      if issues.isEmpty then
        let fs1 := ensureDirectory fs (dirnameStr canvasPath)
        if fileExists fs1 canvasPath then
          (Except.error (createCanvasExistsError canvasPath), fs1,
            [CreateEv.validated, CreateEv.ensuredDir, CreateEv.existsChecked])
        else
          (Except.ok ⟨true, "Canvas created successfully", canvasPath, "create"⟩,
            fsWrite fs1 canvasPath content,
            [CreateEv.validated, CreateEv.ensuredDir, CreateEv.existsChecked, CreateEv.wrote])
      else
        (Except.error (JsErr.mcp ErrKind.invalidParams (zodErrorMessage issues)), fs, [])

/-! ## read-canvas (`src/tools/read-canvas/index.ts`) -/

/-- The result record of `readCanvas`, including the parsed content. -/
structure ReadCanvasResult where
  success : Bool
  message : String
  path : String
  operation : String
  content : Json
deriving Repr

/-- `readCanvas`: existence check, read, `JSON.parse` — and nothing
else; the parsed value is returned without schema validation. -/
def readCanvas (fs : Fs) (vaultPath filename : String) (folder : Option String) :
    Except JsErr ReadCanvasResult :=
  let sanitizedFilename := ensureCanvasExtension filename
  let fullPath :=
    match folder with
    | some fo => joinPath (joinPath vaultPath fo) sanitizedFilename
    | none => joinPath vaultPath sanitizedFilename
  if !validateVaultPath vaultPath fullPath then
    Except.error (JsErr.mcp ErrKind.pathEscape "Path escapes vault root")
  else
    match fsRead fs fullPath with
    | none => Except.error (createCanvasNotFoundError filename)
    | some rawContent =>
      match jsonParse rawContent with
      | none => Except.error (createInvalidJsonError filename "Unknown JSON parsing error")
      | some parsed =>
        Except.ok ⟨true, "Canvas read and parsed successfully", fullPath, "edit", parsed⟩

/-- The canvas-content string produced by the read-canvas tool handler
(line 105): `JSON.stringify(result.content, null, 2)`. -/
def readCanvasToolContentString (fs : Fs) (vaultPath filename : String)
    (folder : Option String) : Except JsErr String :=
  (readCanvas fs vaultPath filename folder).map (fun r => jsonStringify2 r.content)

/-! ## delete-canvas (`src/tools/create-canvas/index.ts`, second file) -/

/-- The `TrashMetadata` record. -/
structure TrashMeta where
  originalPath : String
  deletedAt : String
  reason : Option String
deriving Repr, DecidableEq

/-- The metadata JSON object; an `undefined` reason is omitted by
`JSON.stringify`. -/
def trashMetaJson (m : TrashMeta) : Json :=
  Json.obj
    ([("originalPath", Json.str m.originalPath), ("deletedAt", Json.str m.deletedAt)] ++
      (match m.reason with
       | some r => [("reason", Json.str r)]
       | none => []))

/-- `new Date().toISOString().replace(/[:.]/g, "-")`. -/
def sanitizeTimestamp (s : String) : String :=
  String.mk (s.data.map (fun c => if c = ':' ∨ c = '.' then '-' else c))

/-- `path.basename(p, ".canvas")`. -/
def baseNameCanvas (relPath : String) : String :=
  let base := ((splitOnChar '/' relPath).getLast?).getD relPath
  if strEndsWith base ".canvas" then String.mk (base.data.take (base.data.length - 7)) else base

/-- `moveCanvasToTrash` (lines 170-203): ensure the trash directory,
rename the canvas into it with a timestamp-qualified name, write the
`.meta.json` sidecar.  `nowIso1`/`nowIso2` are the two `new Date()`
observations.  The claims do not exercise rename/write failure here, so
those steps are modelled as succeeding. -/
def moveCanvasToTrash (fs : Fs) (vaultPath canvasRelativePath : String)
    (reason : Option String) (nowIso1 nowIso2 : String) : Except JsErr String × Fs :=
  let trashPath := joinPath vaultPath ".trash"
  let fs0 := ensureDirectory fs trashPath
  let timestamp := sanitizeTimestamp nowIso1
  let baseName := baseNameCanvas canvasRelativePath
  let trashName := baseName ++ "_" ++ timestamp ++ ".canvas"
  let trashFilePath := joinPath trashPath trashName
  let trashMetaPath := trashFilePath ++ ".meta.json"
  let metadata : TrashMeta := ⟨canvasRelativePath, nowIso2, reason⟩
  match fsRead fs0 (joinPath vaultPath canvasRelativePath) with
  | none =>
    (Except.error (handleFsError (JsErr.raw "ENOENT: rename failed") "move canvas to trash"), fs0)
  | some c =>
    let fs1 := fsWrite (fsErase fs0 (joinPath vaultPath canvasRelativePath)) trashFilePath c
    let fs2 := fsWrite fs1 trashMetaPath (jsonStringify2 (trashMetaJson metadata))
    (Except.ok trashName, fs2)

/-- `deleteCanvas` (lines 205-241). -/
def deleteCanvas (fs : Fs) (vaultPath canvasRelativePath : String) (permanent : Bool)
    (reason : Option String) (nowIso1 nowIso2 : String) : Except JsErr String × Fs :=
  let fullPath := joinPath vaultPath canvasRelativePath
  if !validateVaultPath vaultPath fullPath then
    (Except.error (JsErr.mcp ErrKind.pathEscape "Path escapes vault root"), fs)
  else if !fileExists fs fullPath then
    (Except.error (createCanvasNotFoundError canvasRelativePath), fs)
  else if permanent then
    (Except.ok ("Permanently deleted canvas \"" ++ canvasRelativePath ++ "\""), fsErase fs fullPath)
  else
    match moveCanvasToTrash fs vaultPath canvasRelativePath reason nowIso1 nowIso2 with
    | (Except.ok trashName, fs1) =>
      (Except.ok ("Moved canvas \"" ++ canvasRelativePath ++ "\" to trash as \"" ++
        trashName ++ "\""), fs1)
    | (Except.error e, fs1) => (Except.error e, fs1)

/-! ## search-vault (`src/tools/search-vault/index.ts`)

The directory-walking collaborator `getAllMarkdownFiles` lives in
`utils/files.js` (not under `src/`); its two invocations are modelled
from the spec as environment-supplied outcomes (each either a raw error
or a list of vault-relative markdown paths), and per-file `fs.readFile`
outcomes come from the same environment.  The tag helpers of
`utils/tags.js` are out-of-scope collaborators (§1); a tag query's
per-line match outcome is abstracted as a caller-supplied predicate. -/

/-- One match inside a file. -/
structure SearchMatch where
  line : Nat
  text : String
deriving Repr, DecidableEq

/-- Matches of one file (`matchList` embeds the TS field `matches`,
whose name Lean reserves). -/
structure SearchResult where
  file : String
  matchList : List SearchMatch
deriving Repr, DecidableEq

/-- The aggregate result record. -/
structure SearchOpResult where
  success : Bool
  message : String
  results : List SearchResult
  totalMatches : Nat
  matchedFiles : Nat
deriving Repr, DecidableEq

/-- `searchType` argument. -/
inductive SearchType where
  | content : SearchType
  | filename : SearchType
  | both : SearchType
deriving Repr, DecidableEq

/-- Search options (the optional subfolder only affects which files the
environment lists). -/
structure SearchOptions where
  caseSensitive : Bool
  searchType : SearchType
deriving Repr, DecidableEq

/-- Environment of one search-vault call. -/
structure SearchEnv where
  filenameFiles : Except String (List String)
  contentFiles : Except String (List String)
  reads : List (String × Except String String)
deriving Repr

/-- Outcome of reading one file in the environment; a file the
environment does not mention reads as an error. -/
def envRead (env : SearchEnv) (file : String) : Except String String :=
  ((env.reads.find? (fun p => p.1 = file)).map (fun p => p.2)).getD (Except.error "ENOENT")

/-- `query.startsWith("tag:")`. -/
def isTagSearch (q : String) : Bool := strStartsWith q "tag:"

/-- JS `String.prototype.includes` on char lists. -/
def listIncludes (l sub : List Char) : Bool :=
  if sub.isPrefixOf l then true
  else
    match l with
    | [] => false
    | _ :: t => listIncludes t sub

/-- JS `String.prototype.includes`. -/
def strIncludes (s sub : String) : Bool := listIncludes s.data sub.data

/-- `searchFilenames` (lines 44-76). -/
def searchFilenames (env : SearchEnv) (query : String) (options : SearchOptions) :
    Except JsErr (List SearchResult) :=
  match env.filenameFiles with
  | Except.error m => Except.error (handleFsError (JsErr.raw m) "search filenames")
  | Except.ok files =>
    let searchQuery := if options.caseSensitive then query else strToLower query
    Except.ok (files.filterMap (fun relativePath =>
      let searchTarget := if options.caseSensitive then relativePath else strToLower relativePath
      if strIncludes searchTarget searchQuery then
        some ⟨relativePath, [⟨0, "Filename match: " ++ relativePath⟩]⟩
      else none))

/-- The per-line matches of one file's content (lines 94-129). -/
def contentLineMatches (tagLineMatch : String → Bool) (query : String)
    (options : SearchOptions) (content : String) : List SearchMatch :=
  let lines := splitOnChar '\n' content
  if isTagSearch query then
    (lines.enum.filterMap (fun p =>
      if tagLineMatch p.2 then some (⟨p.1 + 1, strTrim p.2⟩ : SearchMatch) else none))
  else
    let searchQuery := if options.caseSensitive then query else strToLower query
    (lines.enum.filterMap (fun p =>
      let searchLine := if options.caseSensitive then p.2 else strToLower p.2
      if strIncludes searchLine searchQuery then some (⟨p.1 + 1, strTrim p.2⟩ : SearchMatch)
      else none))

/-- `searchContent` (lines 78-148): per-file read failures are logged
and skipped, never recorded as errors. -/
def searchContent (env : SearchEnv) (tagLineMatch : String → Bool) (query : String)
    (options : SearchOptions) : Except JsErr (List SearchResult) :=
  match env.contentFiles with
  | Except.error m => Except.error (handleFsError (JsErr.raw m) "search content")
  | Except.ok files =>
    Except.ok (files.filterMap (fun file =>
      match envRead env file with
      | Except.error _ => none
      | Except.ok content =>
        let found := contentLineMatches tagLineMatch query options content
        if found.isEmpty then none else some ⟨file, found⟩))

/-- Sub-search error strings pushed by `searchVault` (lines 161-185). -/
def subSearchErrString (label : String) (e : JsErr) : String :=
  match e with
  | JsErr.mcp _ m => label ++ " search error: " ++ m
  | JsErr.raw m => label ++ " search failed: " ++ m

/-- The result/error accumulation of `searchVault` (lines 158-185): the
filename sub-search runs for `filename`/`both`, the content sub-search
for `content`/`both`; a failed sub-search contributes one error string,
a successful one contributes its results. -/
def searchSteps (env : SearchEnv) (tagLineMatch : String → Bool) (query : String)
    (options : SearchOptions) : List SearchResult × List String :=
  let step1 : List SearchResult × List String :=
    if options.searchType = SearchType.filename ∨ options.searchType = SearchType.both then
      match searchFilenames env query options with
      | Except.ok r => (r, [])
      | Except.error e => ([], [subSearchErrString "Filename" e])
    else ([], [])
  if options.searchType = SearchType.content ∨ options.searchType = SearchType.both then
    match searchContent env tagLineMatch query options with
    | Except.ok r => (step1.1 ++ r, step1.2)
    | Except.error e => (step1.1, step1.2 ++ [subSearchErrString "Content" e])
  else step1

/-- `searchVault` (lines 150-221). -/
def searchVault (env : SearchEnv) (tagLineMatch : String → Bool) (query : String)
    (options : SearchOptions) : Except JsErr SearchOpResult :=
  let results := (searchSteps env tagLineMatch query options).1
  let errors := (searchSteps env tagLineMatch query options).2
  let totalMatches := (results.map (fun r => r.matchList.length)).sum
  if results.length > 0 ∧ errors.length > 0 then
    Except.ok ⟨true, "Search completed with warnings:\n" ++ String.intercalate "\n" errors,
      results, totalMatches, results.length⟩
  else if results.length = 0 ∧ errors.length > 0 then
    Except.error (JsErr.mcp ErrKind.internalError
      ("Search failed:\n" ++ String.intercalate "\n" errors))
  else
    Except.ok ⟨true, "Search completed successfully", results, totalMatches, results.length⟩

/-! ## list-files (`src/unnamed/part_000`) -/

/-- A directory entry as seen by `fs.readdir(..., withFileTypes)`: a
regular file, a directory (with a flag recording whether reading it
succeeds — a failed `readdir` is logged and its subtree skipped), or
anything else (symlinks, devices), which the code ignores. -/
inductive FsTree where
  | file (name : String) : FsTree
  | dir (name : String) (readable : Bool) (children : List FsTree) : FsTree
  | other (name : String) : FsTree
deriving Repr

/-- The entry's name. -/
def entryName : FsTree → String
  | FsTree.file n => n
  | FsTree.dir n _ _ => n
  | FsTree.other n => n

/-- The ignored-names set of `listVaultFiles` (line 57). -/
def ignoredNames : List String := [".obsidian", ".trash", "node_modules"]

/-- Vault-relative path of an entry under prefix `pre`
(`path.relative(vaultPath, path.join(dirPath, entry.name))`). -/
def mkRel (pre name : String) : String := if pre = "" then name else pre ++ "/" ++ name

mutual

/-- `listFilesRecursive` (lines 20-53) over a directory's entries. -/
def listFilesRecursive (relPre : String) : List FsTree → List String
  | [] => []
  | e :: es =>
    (if ignoredNames.contains (entryName e) || strStartsWith (entryName e) "." then []
     else listEntryFiles relPre e) ++ listFilesRecursive relPre es

/-- Files contributed by one (non-skipped) entry. -/
def listEntryFiles (relPre : String) : FsTree → List String
  | FsTree.file n => [mkRel relPre n]
  | FsTree.dir n true cs => listFilesRecursive (mkRel relPre n) cs
  | FsTree.dir _ false _ => []
  | FsTree.other _ => []

end

/-- `listVaultFiles` (lines 56-69): gather then sort
(`Array.prototype.sort` default string order). -/
def listVaultFiles (rootEntries : List FsTree) : List String :=
  (listFilesRecursive "" rootEntries).mergeSort (fun a b => decide (a ≤ b))

/-! ## Definitions supporting the claims -/

/-- The full path computed by the note tools. -/
def noteFullPath (vault filename : String) (folder : Option String) : String :=
  match folder with
  | some fo => joinPath (joinPath vault fo) (ensureMarkdownExtension filename)
  | none => joinPath vault (ensureMarkdownExtension filename)

/-- The full path computed by the canvas tools. -/
def canvasFullPath (vault filename : String) (folder : Option String) : String :=
  match folder with
  | some fo => joinPath (joinPath vault fo) (ensureCanvasExtension filename)
  | none => joinPath vault (ensureCanvasExtension filename)

/-- The thrown error of a call result, when it failed. -/
def errOf {α : Type} : Except JsErr α → Option JsErr
  | Except.error e => some e
  | Except.ok _ => none

/-- The cheap up-front `.refine` predicate of the create-canvas and
edit-canvas input schemas: `JSON.parse` then
`canvasSchema.safeParse(parsed).success`, `false` on a parse throw. -/
def contentRefineCheck (s : String) : Bool :=
  match jsonParse s with
  | none => false
  | some parsed => canvasSafeParseSuccess parsed

/-- The authoritative in-handler check of `createCanvas`/`editCanvas`:
`JSON.parse` then the strict `canvasSchema.parse`, which throws the
field-path-annotated `InvalidParams` error on a non-empty issue list. -/
def handlerStrictCheck (filename s : String) : Except JsErr Json :=
  match jsonParse s with
  | none => Except.error (createInvalidJsonError filename "Unknown JSON parsing error")
  | some parsed =>
    match canvasSchemaIssues parsed with
    | [] => Except.ok parsed
    | issues => Except.error (JsErr.mcp ErrKind.invalidParams (zodErrorMessage issues))

/-- The trash path of a non-permanent canvas delete. -/
def trashFilePathOf (vault rel nowIso1 : String) : String :=
  joinPath (joinPath vault ".trash")
    (baseNameCanvas rel ++ "_" ++ sanitizeTimestamp nowIso1 ++ ".canvas")

/-- Object-field projection of a JSON value. -/
def jsonField (j : Json) (k : String) : Option Json :=
  match j with
  | Json.obj fields => lookupField fields k
  | _ => none

/-- A well-formed directory-entry name: non-empty, without separator. -/
def nameOk (n : String) : Bool := !(n.data.isEmpty) && !(n.data.contains '/')

mutual

def entryNamesOk : FsTree → Bool
  | FsTree.file n => nameOk n
  | FsTree.dir n _ cs => nameOk n && namesOkList cs
  | FsTree.other n => nameOk n

def namesOkList : List FsTree → Bool
  | [] => true
  | e :: es => entryNamesOk e && namesOkList es

end

mutual

def isFileAtEntry : FsTree → List String → Bool
  | FsTree.file n, [c] => n = c
  | FsTree.dir n _ cs, c :: r :: rest => n = c && isFileAtList cs (r :: rest)
  | _, _ => false

def isFileAtList : List FsTree → List String → Bool
  | [], _ => false
  | e :: es, comps => isFileAtEntry e comps || isFileAtList es comps

end

/-- Join path components with `/`. -/
def joinComps : List String → String
  | [] => ""
  | [c] => c
  | c :: c2 :: rest => c ++ "/" ++ joinComps (c2 :: rest)

/-- The recognized key set of a conforming node (by its discriminator). -/
def nodeAllowedKeys (fields : List (String × Json)) : List String :=
  match lookupField fields "type" with
  | some (Json.str t) =>
    if t = "text" then textAllowed
    else if t = "file" then fileAllowed
    else if t = "link" then linkAllowed
    else if t = "group" then groupAllowed
    else ["type"]
  | _ => ["type"]

/-- Replace the value of a field in place (JS object property update). -/
def updateField (fields : List (String × Json)) (k : String) (nv : Json) :
    List (String × Json) :=
  fields.map (fun p => if p.1 = k then (p.1, nv) else p)

/-! ## Infrastructure lemmas -/

theorem assocGet_set_self (l : List (String × String)) (k v : String) :
    assocGet (assocSet l k v) k = some v := by
  induction l with
  | nil => simp [assocSet, assocGet]
  | cons p t ih =>
    by_cases h : p.1 = k
    · simp [assocSet, assocGet, h]
    · simp [assocSet, assocGet, h, ih]

theorem assocGet_set_ne (l : List (String × String)) (k k2 v : String) (h : ¬ k2 = k) :
    assocGet (assocSet l k v) k2 = assocGet l k2 := by
  have h' : ¬ k = k2 := fun hh => h hh.symm
  induction l with
  | nil => simp [assocSet, assocGet, h']
  | cons p t ih =>
    by_cases hp : p.1 = k
    · have hpk2 : ¬ p.1 = k2 := by rw [hp]; exact h'
      simp [assocSet, assocGet, hp, h', hpk2]
    · by_cases hp2 : p.1 = k2
      · simp [assocSet, assocGet, hp, hp2, h]
      · simp [assocSet, assocGet, hp, hp2, ih]

theorem assocGet_erase_self (l : List (String × String)) (k : String) :
    assocGet (assocErase l k) k = none := by
  induction l with
  | nil => simp [assocErase, assocGet]
  | cons p t ih =>
    by_cases h : p.1 = k
    · simpa [assocErase, assocGet, h] using ih
    · simpa [assocErase, assocGet, h] using ih

theorem assocGet_erase_ne (l : List (String × String)) (k k2 : String) (h : ¬ k2 = k) :
    assocGet (assocErase l k) k2 = assocGet l k2 := by
  have h' : ¬ k = k2 := fun hh => h hh.symm
  induction l with
  | nil => simp [assocErase, assocGet]
  | cons p t ih =>
    by_cases hp : p.1 = k
    · simpa [assocErase, assocGet, hp, h'] using ih
    · by_cases hp2 : p.1 = k2
      · simp [assocErase, assocGet, hp, hp2, h]
      · simpa [assocErase, assocGet, hp, hp2] using ih

theorem fsRead_write_self (fs : Fs) (p c : String) : fsRead (fsWrite fs p c) p = some c := by
  simp [fsRead, fsWrite, assocGet_set_self]

theorem fsRead_write_ne (fs : Fs) (p c q : String) (h : ¬ q = p) :
    fsRead (fsWrite fs p c) q = fsRead fs q := by
  simp [fsRead, fsWrite, assocGet_set_ne _ _ _ _ h]

theorem fsRead_erase_self (fs : Fs) (p : String) : fsRead (fsErase fs p) p = none := by
  simp [fsRead, fsErase, assocGet_erase_self]

theorem fsRead_erase_ne (fs : Fs) (p q : String) (h : ¬ q = p) :
    fsRead (fsErase fs p) q = fsRead fs q := by
  simp [fsRead, fsErase, assocGet_erase_ne _ _ _ h]

theorem string_length_ne_imp_ne {s t : String} (h : ¬ s.length = t.length) : ¬ s = t :=
  fun he => h (he ▸ rfl)

/-- A string strictly grows when a non-trivial suffix is appended; used
to separate a target path from its backup path. -/
theorem append_ne_self (s t : String) (h : 0 < t.length) : ¬ s ++ t = s := by
  apply string_length_ne_imp_ne
  simp [String.length_append]
  omega

/-- The backup path `full ++ "." ++ ts ++ ".backup"` differs from `full`. -/
theorem backupPath_ne (full ts : String) : ¬ full ++ "." ++ ts ++ ".backup" = full := by
  have h1 : full ++ "." ++ ts ++ ".backup" = full ++ ("." ++ ts ++ ".backup") := by
    simp [String.append_assoc]
  rw [h1]
  apply append_ne_self
  have hdot : ".".length = 1 := rfl
  have hback : ".backup".length = 7 := rfl
  rw [String.length_append, String.length_append, hdot, hback]
  omega

theorem listIsPrefixOf_append (a b : List Char) : a.isPrefixOf (a ++ b) = true := by
  induction a with
  | nil => simp [List.isPrefixOf]
  | cons c t ih => simp [List.isPrefixOf, ih]

/-- The path guard succeeds on any joined in-vault path. -/
theorem validateVaultPath_join (root rest : String) :
    validateVaultPath root (root ++ "/" ++ rest) = true := by
  have h : root ++ "/" ++ rest = (root ++ "/") ++ rest := by
    simp [String.append_assoc]
  rw [validateVaultPath, h, String.data_append]
  exact listIsPrefixOf_append _ _

theorem validateVaultPath_join1 (root b : String) :
    validateVaultPath root (joinPath root b) = true := by
  have h : joinPath root b = root ++ "/" ++ b := rfl
  rw [h]; exact validateVaultPath_join root b

theorem validateVaultPath_join2 (root a b : String) :
    validateVaultPath root (joinPath (joinPath root a) b) = true := by
  have h : joinPath (joinPath root a) b = root ++ "/" ++ (a ++ "/" ++ b) := by
    simp [joinPath, String.append_assoc]
  rw [h]; exact validateVaultPath_join root _


theorem validateVaultPath_note (vault filename : String) (folder : Option String) :
    validateVaultPath vault (noteFullPath vault filename folder) = true := by
  cases folder with
  | none => exact validateVaultPath_join1 _ _
  | some fo => exact validateVaultPath_join2 _ _ _

theorem validateVaultPath_canvas (vault filename : String) (folder : Option String) :
    validateVaultPath vault (canvasFullPath vault filename folder) = true := by
  cases folder with
  | none => exact validateVaultPath_join1 _ _
  | some fo => exact validateVaultPath_join2 _ _ _

/-! ## Safe-mutator lemmas (claims C1/C2) -/

/-- Symbolic execution of the append/prepend/replace body when exactly
the content write fails: the rollback restores the snapshot and removes
the backup, and the wrapped write error is rethrown. -/
theorem editNoteBody_writeFail (fs : Fs)
    (fullPath backupPath filename opName content orig : String) (op : EditOp)
    (hop : op = EditOp.append ∨ op = EditOp.prepend ∨ op = EditOp.replace)
    (hnb : ¬ backupPath = fullPath)
    (horig : fsRead fs fullPath = some orig) :
    editNoteBody (fsWrite fs backupPath orig) fullPath backupPath filename op (some content)
      { noNoteFaults with writeFails := true } opName =
    (Except.error (handleFsError (JsErr.raw "EIO: writeFile failed") opName),
     fsErase (fsWrite (fsWrite fs backupPath orig) fullPath orig) backupPath) := by
  have hbn : ¬ fullPath = backupPath := fun hh => hnb hh.symm
  rcases hop with h | h | h <;> subst h <;>
    simp [editNoteBody, editNoteErrorCatch, editNoteOuterCatch, fileExists, noNoteFaults,
      fsRead_write_self, fsRead_write_ne _ _ _ _ hbn, fsRead_erase_self, horig, handleFsError]

/-- `editNote` under a write-only fault on an existing target. -/
theorem editNote_writeFail (fs : Fs) (vault filename ts orig content : String)
    (folder : Option String) (op : EditOp)
    (hop : op = EditOp.append ∨ op = EditOp.prepend ∨ op = EditOp.replace)
    (horig : fsRead fs (noteFullPath vault filename folder) = some orig) :
    editNote fs vault filename op (some content) folder ts
      { noNoteFaults with writeFails := true } =
    (Except.error (handleFsError (JsErr.raw "EIO: writeFile failed") (opString op ++ " note")),
     fsErase
       (fsWrite
         (fsWrite fs (noteFullPath vault filename folder ++ "." ++ ts ++ ".backup") orig)
         (noteFullPath vault filename folder) orig)
       (noteFullPath vault filename folder ++ "." ++ ts ++ ".backup")) := by
  have hnb := backupPath_ne (noteFullPath vault filename folder) ts
  have hcore := editNoteBody_writeFail fs (noteFullPath vault filename folder)
    (noteFullPath vault filename folder ++ "." ++ ts ++ ".backup") filename
    (opString op ++ " note") content orig op hop hnb horig
  have hdel : (decide (op = EditOp.delete)) = false := by
    rcases hop with h | h | h <;> subst h <;> rfl
  simp only [noNoteFaults] at hcore
  cases folder with
  | none =>
    rw [editNote.eq_def]
    simp only [noteFullPath] at horig hcore ⊢
    simp [validateVaultPath_join1, fileExists, horig, hdel, noNoteFaults, hcore]
  | some fo =>
    rw [editNote.eq_def]
    simp only [noteFullPath] at horig hcore ⊢
    simp [validateVaultPath_join2, fileExists, horig, hdel, noNoteFaults, hcore]

/-- Symbolic execution of the canvas write-error catch when the
rollback succeeds. -/
theorem editCanvasWriteCatch_rollbackOk (fs : Fs) (fullPath backupPath orig : String) :
    editCanvasWriteCatch (fsWrite fs backupPath orig) fullPath backupPath
      { noCanvasFaults with writeFails := true } (JsErr.raw "EIO: writeFile failed") =
    (Except.error (handleFsError (JsErr.raw "EIO: writeFile failed") "edit canvas"),
     fsErase (fsWrite (fsWrite fs backupPath orig) fullPath orig) backupPath) := by
  simp [editCanvasWriteCatch, editCanvasOuterCatch, fileExists, noCanvasFaults,
    fsRead_write_self, fsRead_erase_self, handleFsError]

/-- `editCanvas` under a write-only fault on an existing target with
valid content. -/
theorem editCanvas_writeFail (fs : Fs) (vault filename ts orig content : String)
    (folder : Option String) (j : Json)
    (hj : jsonParse content = some j) (hv : canvasSchemaIssues j = [])
    (horig : fsRead fs (canvasFullPath vault filename folder) = some orig) :
    editCanvas fs vault filename content folder ts
      { noCanvasFaults with writeFails := true } =
    (Except.error (handleFsError (JsErr.raw "EIO: writeFile failed") "edit canvas"),
     fsErase
       (fsWrite
         (fsWrite fs (canvasFullPath vault filename folder ++ "." ++ ts ++ ".backup") orig)
         (canvasFullPath vault filename folder) orig)
       (canvasFullPath vault filename folder ++ "." ++ ts ++ ".backup")) := by
  have hcore := editCanvasWriteCatch_rollbackOk fs (canvasFullPath vault filename folder)
    (canvasFullPath vault filename folder ++ "." ++ ts ++ ".backup") orig
  simp only [noCanvasFaults] at hcore
  cases folder with
  | none =>
    rw [editCanvas.eq_def]
    simp only [canvasFullPath] at horig hcore ⊢
    simp [validateVaultPath_join1, fileExists, horig, hj, hv, noCanvasFaults, hcore]
  | some fo =>
    rw [editCanvas.eq_def]
    simp only [canvasFullPath] at horig hcore ⊢
    simp [validateVaultPath_join2, fileExists, horig, hj, hv, noCanvasFaults, hcore]

/-- C1: for every edit-note call (operation append, prepend or replace)
and every edit-canvas call on an existing target file, if the write of
the new content fails after a successful backup snapshot, the call
fails, the target's content after the call is byte-identical to its
content before the call, and no backup file remains on disk. -/
theorem claim_C1 (fs : Fs) (vault filename ts orig content : String) (folder : Option String) :
    (∀ op : EditOp, (op = EditOp.append ∨ op = EditOp.prepend ∨ op = EditOp.replace) →
      fsRead fs (noteFullPath vault filename folder) = some orig →
      let r := editNote fs vault filename op (some content) folder ts
        { noNoteFaults with writeFails := true }
      (∃ e, r.1 = Except.error e) ∧
      fsRead r.2 (noteFullPath vault filename folder) = some orig ∧
      fsRead r.2 (noteFullPath vault filename folder ++ "." ++ ts ++ ".backup") = none) ∧
    (∀ j : Json, jsonParse content = some j → canvasSchemaIssues j = [] →
      fsRead fs (canvasFullPath vault filename folder) = some orig →
      let r := editCanvas fs vault filename content folder ts
        { noCanvasFaults with writeFails := true }
      (∃ e, r.1 = Except.error e) ∧
      fsRead r.2 (canvasFullPath vault filename folder) = some orig ∧
      fsRead r.2 (canvasFullPath vault filename folder ++ "." ++ ts ++ ".backup") = none) := by
  constructor
  · intro op hop horig r
    have hnb := backupPath_ne (noteFullPath vault filename folder) ts
    have hbn : ¬ noteFullPath vault filename folder =
        noteFullPath vault filename folder ++ "." ++ ts ++ ".backup" := fun hh => hnb hh.symm
    have hr : r = _ := editNote_writeFail fs vault filename ts orig content folder op hop horig
    refine ⟨⟨_, by rw [hr]⟩, ?_, ?_⟩
    · rw [hr]
      simp [fsRead_erase_ne _ _ _ hbn, fsRead_write_self]
    · rw [hr]
      simp [fsRead_erase_self]
  · intro j hj hv horig r
    have hnb := backupPath_ne (canvasFullPath vault filename folder) ts
    have hbn : ¬ canvasFullPath vault filename folder =
        canvasFullPath vault filename folder ++ "." ++ ts ++ ".backup" := fun hh => hnb hh.symm
    have hr : r = _ := editCanvas_writeFail fs vault filename ts orig content folder j hj hv horig
    refine ⟨⟨_, by rw [hr]⟩, ?_, ?_⟩
    · rw [hr]
      simp [fsRead_erase_ne _ _ _ hbn, fsRead_write_self]
    · rw [hr]
      simp [fsRead_erase_self]

/-- Witness for C1 at a concrete vault. -/
theorem claim_C1_witness :
    (let r := editNote ⟨[("/v/n.md", "old"), ("/v/n.canvas", "oldc")], []⟩ "/v" "n"
        EditOp.replace (some "new") none "7" { noNoteFaults with writeFails := true }
     (∃ e, r.1 = Except.error e) ∧
     fsRead r.2 "/v/n.md" = some "old" ∧
     fsRead r.2 "/v/n.md.7.backup" = none) ∧
    (let r := editCanvas ⟨[("/v/n.md", "old"), ("/v/n.canvas", "oldc")], []⟩ "/v" "n"
        "\x7b\x7d" none "7" { noCanvasFaults with writeFails := true }
     (∃ e, r.1 = Except.error e) ∧
     fsRead r.2 "/v/n.canvas" = some "oldc" ∧
     fsRead r.2 "/v/n.canvas.7.backup" = none) :=
  ⟨(claim_C1 ⟨[("/v/n.md", "old"), ("/v/n.canvas", "oldc")], []⟩ "/v" "n" "7" "old" "new" none).1
      EditOp.replace (Or.inr (Or.inr rfl)) rfl,
   (claim_C1 ⟨[("/v/n.md", "old"), ("/v/n.canvas", "oldc")], []⟩ "/v" "n" "7" "oldc" "\x7b\x7d"
      none).2 (Json.obj []) rfl rfl rfl⟩


/-- C2 (code bug): when the write fails and the rollback copy also
fails, both edit tools do raise the distinct fatal `InternalError`
naming the backup path — but the general catch block then removes (or
restores and removes) the backup, so contrary to the claim and to the
error message's own text, no backup file exists on disk when the call
returns.  Evaluated at the failing input. -/
theorem claim_C2_code_bug :
    (let r := editCanvas ⟨[("/v/a.canvas", "old")], []⟩ "/v" "a.canvas" "\x7b\x7d" none "7"
        ⟨false, true, false, true, false, false⟩
     errOf r.1 = some (JsErr.mcp ErrKind.internalError
       ("Failed to rollback canvas changes after write error. Original error: " ++
        "EIO: writeFile failed. Rollback error: EIO: copyFile failed. " ++
        "Backup file preserved at /v/a.canvas.7.backup")) ∧
     fsRead r.2 "/v/a.canvas.7.backup" = none) ∧
    (let r := editNote ⟨[("/v/a.md", "old")], []⟩ "/v" "a.md" EditOp.replace (some "new") none "7"
        ⟨false, false, true, false, true, false, false, false, false, false⟩
     errOf r.1 = some (JsErr.mcp ErrKind.internalError
       ("Failed to rollback changes. Original error: EIO: writeFile failed. " ++
        "Rollback error: EIO: copyFile failed. Backup file preserved at /v/a.md.7.backup")) ∧
     fsRead r.2 "/v/a.md.7.backup" = none) := by
  refine ⟨⟨?_, ?_⟩, ⟨?_, ?_⟩⟩ <;> rfl

/-! ## read-canvas behaviour (claims C3/C4) -/

/-- C3 counterexample: on a file whose content is valid JSON but not a
valid canvas document (`\x7b"foo":1\x7d`), read-canvas succeeds and returns the
parsed value, although the canvas schema rejects that value — no schema
validation is applied after the read. -/
theorem claim_C3_counterexample :
    readCanvas ⟨[("/v/b.canvas", "\x7b\"foo\":1\x7d")], []⟩ "/v" "b.canvas" none =
      Except.ok ⟨true, "Canvas read and parsed successfully", "/v/b.canvas", "edit",
        Json.obj [("foo", Json.num true 1)]⟩ ∧
    canvasSchemaIssues (Json.obj [("foo", Json.num true 1)]) =
      [([], "Canvas object must only contain \x27nodes\x27 and \x27edges\x27 properties")] :=
  ⟨rfl, rfl⟩

/-- read-canvas on an existing file with parseable content returns the
parsed value, unvalidated. -/
theorem readCanvas_parse_ok (fs : Fs) (vault filename : String) (folder : Option String)
    (content : String) (j : Json)
    (hc : fsRead fs (canvasFullPath vault filename folder) = some content)
    (hj : jsonParse content = some j) :
    readCanvas fs vault filename folder =
      Except.ok ⟨true, "Canvas read and parsed successfully",
        canvasFullPath vault filename folder, "edit", j⟩ := by
  cases folder with
  | none =>
    rw [readCanvas]
    simp only [canvasFullPath] at hc ⊢
    simp [validateVaultPath_join1, hc, hj]
  | some fo =>
    rw [readCanvas]
    simp only [canvasFullPath] at hc ⊢
    simp [validateVaultPath_join2, hc, hj]

/-- read-canvas rejects content that is not valid JSON. -/
theorem readCanvas_badJson (fs : Fs) (vault filename : String) (folder : Option String)
    (content : String)
    (hc : fsRead fs (canvasFullPath vault filename folder) = some content)
    (hj : jsonParse content = none) :
    readCanvas fs vault filename folder =
      Except.error (createInvalidJsonError filename "Unknown JSON parsing error") := by
  cases folder with
  | none =>
    rw [readCanvas]
    simp only [canvasFullPath] at hc ⊢
    simp [validateVaultPath_join1, hc, hj]
  | some fo =>
    rw [readCanvas]
    simp only [canvasFullPath] at hc ⊢
    simp [validateVaultPath_join2, hc, hj]

/-- read-canvas rejects a missing file. -/
theorem readCanvas_missing (fs : Fs) (vault filename : String) (folder : Option String)
    (hc : fsRead fs (canvasFullPath vault filename folder) = none) :
    readCanvas fs vault filename folder =
      Except.error (createCanvasNotFoundError filename) := by
  cases folder with
  | none =>
    rw [readCanvas]
    simp only [canvasFullPath] at hc ⊢
    simp [validateVaultPath_join1, hc]
  | some fo =>
    rw [readCanvas]
    simp only [canvasFullPath] at hc ⊢
    simp [validateVaultPath_join2, hc]

/-- C3 amended: read-canvas applies no schema validation after the
read-then-trust boundary; it returns any successfully JSON-parsed file
content as a successful result, and rejects only missing files and
content that is not valid JSON. -/
theorem claim_C3 (fs : Fs) (vault filename : String) (folder : Option String) :
    (∀ (content : String) (j : Json),
      fsRead fs (canvasFullPath vault filename folder) = some content →
      jsonParse content = some j →
      readCanvas fs vault filename folder =
        Except.ok ⟨true, "Canvas read and parsed successfully",
          canvasFullPath vault filename folder, "edit", j⟩) ∧
    (∀ content : String,
      fsRead fs (canvasFullPath vault filename folder) = some content →
      jsonParse content = none →
      readCanvas fs vault filename folder =
        Except.error (createInvalidJsonError filename "Unknown JSON parsing error")) ∧
    (fsRead fs (canvasFullPath vault filename folder) = none →
      readCanvas fs vault filename folder =
        Except.error (createCanvasNotFoundError filename)) :=
  ⟨fun content j hc hj => readCanvas_parse_ok fs vault filename folder content j hc hj,
   fun content hc hj => readCanvas_badJson fs vault filename folder content hc hj,
   fun hc => readCanvas_missing fs vault filename folder hc⟩

/-- Witness for the amended C3 at the counterexample input. -/
theorem claim_C3_witness :
    readCanvas ⟨[("/v/b.canvas", "\x7b\"foo\":1\x7d")], []⟩ "/v" "b.canvas" none =
      Except.ok ⟨true, "Canvas read and parsed successfully", "/v/b.canvas", "edit",
        Json.obj [("foo", Json.num true 1)]⟩ :=
  (claim_C3 ⟨[("/v/b.canvas", "\x7b\"foo\":1\x7d")], []⟩ "/v" "b.canvas" none).1
    "\x7b\"foo\":1\x7d" (Json.obj [("foo", Json.num true 1)]) rfl rfl

/-- `createCanvas` on a fresh target with valid content writes the
original string verbatim. -/
theorem createCanvas_ok (fs : Fs) (vault filename s : String) (folder : Option String)
    (j : Json) (hj : jsonParse s = some j) (hv : canvasSchemaIssues j = [])
    (hne : fsRead fs (canvasFullPath vault filename folder) = none) :
    createCanvas fs vault filename s folder =
    (Except.ok ⟨true, "Canvas created successfully", canvasFullPath vault filename folder,
        "create"⟩,
     fsWrite (ensureDirectory fs (dirnameStr (canvasFullPath vault filename folder)))
       (canvasFullPath vault filename folder) s,
     [CreateEv.validated, CreateEv.ensuredDir, CreateEv.existsChecked, CreateEv.wrote]) := by
  simp only [fsRead] at hne
  cases folder with
  | none =>
    rw [createCanvas.eq_def]
    simp only [canvasFullPath] at hne ⊢
    simp [validateVaultPath_join1, hj, hv, fileExists, fsRead, ensureDirectory, hne]
  | some fo =>
    rw [createCanvas.eq_def]
    simp only [canvasFullPath] at hne ⊢
    simp [validateVaultPath_join2, hj, hv, fileExists, fsRead, ensureDirectory, hne]

/-- `editCanvas` with no faults on an existing target replaces the
content with the original string verbatim and removes the backup. -/
theorem editCanvas_ok (fs : Fs) (vault filename ts s orig : String) (folder : Option String)
    (j : Json) (hj : jsonParse s = some j) (hv : canvasSchemaIssues j = [])
    (horig : fsRead fs (canvasFullPath vault filename folder) = some orig) :
    editCanvas fs vault filename s folder ts noCanvasFaults =
    (Except.ok ⟨true, "Canvas replaced successfully", canvasFullPath vault filename folder,
        "edit"⟩,
     fsErase
       (fsWrite (fsWrite fs (canvasFullPath vault filename folder ++ "." ++ ts ++ ".backup") orig)
         (canvasFullPath vault filename folder) s)
       (canvasFullPath vault filename folder ++ "." ++ ts ++ ".backup")) := by
  cases folder with
  | none =>
    rw [editCanvas.eq_def]
    simp only [canvasFullPath] at horig ⊢
    simp [validateVaultPath_join1, hj, hv, fileExists, horig, noCanvasFaults]
  | some fo =>
    rw [editCanvas.eq_def]
    simp only [canvasFullPath] at horig ⊢
    simp [validateVaultPath_join2, hj, hv, fileExists, horig, noCanvasFaults]

/-- C4 counterexample: creating a canvas with the compact schema-valid
string and reading it back through the read-canvas tool yields the
2-space pretty-printed re-serialization, which is not byte-identical to
the original (the file on disk, by contrast, is). -/
theorem claim_C4_counterexample :
    (createCanvas ⟨[], []⟩ "/v" "b" "\x7b\"nodes\":[],\"edges\":[]\x7d" none).1 =
      Except.ok ⟨true, "Canvas created successfully", "/v/b.canvas", "create"⟩ ∧
    fsRead (createCanvas ⟨[], []⟩ "/v" "b" "\x7b\"nodes\":[],\"edges\":[]\x7d" none).2.1
      "/v/b.canvas" = some "\x7b\"nodes\":[],\"edges\":[]\x7d" ∧
    readCanvasToolContentString
      (createCanvas ⟨[], []⟩ "/v" "b" "\x7b\"nodes\":[],\"edges\":[]\x7d" none).2.1
      "/v" "b" none = Except.ok "\x7b\n  \"nodes\": [],\n  \"edges\": []\n\x7d" ∧
    ¬ ("\x7b\n  \"nodes\": [],\n  \"edges\": []\n\x7d" = "\x7b\"nodes\":[],\"edges\":[]\x7d") := by
  refine ⟨rfl, rfl, rfl, ?_⟩
  decide

/-- C4 amended: create-canvas and edit-canvas persist the original
validated string byte-for-byte (the core never reformats what it
stores), but the read-canvas tool re-serializes the parsed value with
2-space indentation, so the content string it returns is
`JSON.stringify(JSON.parse(s), null, 2)` rather than `s`. -/
theorem claim_C4 (fs : Fs) (vault filename ts s : String) (folder : Option String) (j : Json)
    (hj : jsonParse s = some j) (hv : canvasSchemaIssues j = []) :
    (fsRead fs (canvasFullPath vault filename folder) = none →
      let r := createCanvas fs vault filename s folder
      (∃ res, r.1 = Except.ok res) ∧
      fsRead r.2.1 (canvasFullPath vault filename folder) = some s ∧
      readCanvasToolContentString r.2.1 vault filename folder =
        Except.ok (jsonStringify2 j)) ∧
    (∀ orig : String, fsRead fs (canvasFullPath vault filename folder) = some orig →
      let r := editCanvas fs vault filename s folder ts noCanvasFaults
      (∃ res, r.1 = Except.ok res) ∧
      fsRead r.2 (canvasFullPath vault filename folder) = some s ∧
      readCanvasToolContentString r.2 vault filename folder =
        Except.ok (jsonStringify2 j)) := by
  constructor
  · intro hne r
    have hr : r = _ := createCanvas_ok fs vault filename s folder j hj hv hne
    have hread : fsRead r.2.1 (canvasFullPath vault filename folder) = some s := by
      rw [hr]; simp [fsRead_write_self]
    refine ⟨⟨_, by rw [hr]⟩, hread, ?_⟩
    rw [readCanvasToolContentString, readCanvas_parse_ok r.2.1 vault filename folder s j hread hj]
    rfl
  · intro orig horig r
    have hnb := backupPath_ne (canvasFullPath vault filename folder) ts
    have hbn : ¬ canvasFullPath vault filename folder =
        canvasFullPath vault filename folder ++ "." ++ ts ++ ".backup" := fun hh => hnb hh.symm
    have hr : r = _ := editCanvas_ok fs vault filename ts s orig folder j hj hv horig
    have hread : fsRead r.2 (canvasFullPath vault filename folder) = some s := by
      rw [hr]; simp [fsRead_erase_ne _ _ _ hbn, fsRead_write_self]
    refine ⟨⟨_, by rw [hr]⟩, hread, ?_⟩
    rw [readCanvasToolContentString, readCanvas_parse_ok r.2 vault filename folder s j hread hj]
    rfl

/-- Witness for the amended C4 at a concrete input. -/
theorem claim_C4_witness :
    (let r := createCanvas ⟨[], []⟩ "/v" "b" "\x7b\"nodes\":[],\"edges\":[]\x7d" none
     (∃ res, r.1 = Except.ok res) ∧
     fsRead r.2.1 "/v/b.canvas" = some "\x7b\"nodes\":[],\"edges\":[]\x7d" ∧
     readCanvasToolContentString r.2.1 "/v" "b" none =
       Except.ok (jsonStringify2 (Json.obj [("nodes", Json.arr []), ("edges", Json.arr [])]))) :=
  (claim_C4 ⟨[], []⟩ "/v" "b" "7" "\x7b\"nodes\":[],\"edges\":[]\x7d" none
    (Json.obj [("nodes", Json.arr []), ("edges", Json.arr [])]) rfl rfl).1 rfl

/-! ## Validator agreement (claim C6) -/


/-- C6: for every content string, the cheap up-front check accepts
exactly when the authoritative strict handler check accepts: both are
`JSON.parse` followed by the same schema applied to the same value, so
they agree on every input. -/
theorem claim_C6 (filename s : String) :
    contentRefineCheck s = true ↔ ∃ j, handlerStrictCheck filename s = Except.ok j := by
  unfold contentRefineCheck handlerStrictCheck canvasSafeParseSuccess
  cases hp : jsonParse s with
  | none => simp
  | some parsed =>
    cases hi : canvasSchemaIssues parsed with
    | nil => simp [hi]
    | cons i rest => simp [hi]

/-! ## create-canvas ordering and AlreadyExists (claim C7) -/

/-- `createCanvas` when the target already exists: the distinct
`AlreadyExists` error after validation and directory creation, with no
file touched. -/
theorem createCanvas_exists (fs : Fs) (vault filename s c : String) (folder : Option String)
    (j : Json) (hj : jsonParse s = some j) (hv : canvasSchemaIssues j = [])
    (hex : fsRead fs (canvasFullPath vault filename folder) = some c) :
    createCanvas fs vault filename s folder =
    (Except.error (createCanvasExistsError (canvasFullPath vault filename folder)),
     ensureDirectory fs (dirnameStr (canvasFullPath vault filename folder)),
     [CreateEv.validated, CreateEv.ensuredDir, CreateEv.existsChecked]) := by
  simp only [fsRead] at hex
  cases folder with
  | none =>
    rw [createCanvas.eq_def]
    simp only [canvasFullPath] at hex ⊢
    simp [validateVaultPath_join1, hj, hv, fileExists, fsRead, ensureDirectory, hex]
  | some fo =>
    rw [createCanvas.eq_def]
    simp only [canvasFullPath] at hex ⊢
    simp [validateVaultPath_join2, hj, hv, fileExists, fsRead, ensureDirectory, hex]

/-- C7: a create-canvas call with a valid payload on an existing target
fails with the distinct AlreadyExists error, leaves every file (in
particular the target) unchanged, performs no snapshot, and its
completed steps are exactly validation, then parent-directory creation,
then the existence check — no write; a payload that fails validation
performs no step at all. -/
theorem claim_C7 (fs : Fs) (vault filename s c : String) (folder : Option String) (j : Json)
    (hj : jsonParse s = some j) (hv : canvasSchemaIssues j = [])
    (hex : fsRead fs (canvasFullPath vault filename folder) = some c) :
    (let r := createCanvas fs vault filename s folder
     r.1 = Except.error (createCanvasExistsError (canvasFullPath vault filename folder)) ∧
     r.2.1.files = fs.files ∧
     fsRead r.2.1 (canvasFullPath vault filename folder) = some c ∧
     r.2.2 = [CreateEv.validated, CreateEv.ensuredDir, CreateEv.existsChecked]) ∧
    (∀ s2 : String, jsonParse s2 = none →
      (createCanvas fs vault filename s2 folder).2.1 = fs ∧
      (createCanvas fs vault filename s2 folder).2.2 = []) ∧
    (∀ (s2 : String) (j2 : Json), jsonParse s2 = some j2 → ¬ canvasSchemaIssues j2 = [] →
      (createCanvas fs vault filename s2 folder).2.1 = fs ∧
      (createCanvas fs vault filename s2 folder).2.2 = []) := by
  refine ⟨?_, ?_, ?_⟩
  · intro r
    have hr : r = _ := createCanvas_exists fs vault filename s c folder j hj hv hex
    refine ⟨by rw [hr], by rw [hr]; rfl, by rw [hr]; exact hex, by rw [hr]⟩
  · intro s2 hp
    cases folder with
    | none =>
      constructor <;>
        (rw [createCanvas.eq_def]; simp [canvasFullPath, validateVaultPath_join1, hp])
    | some fo =>
      constructor <;>
        (rw [createCanvas.eq_def]; simp [canvasFullPath, validateVaultPath_join2, hp])
  · intro s2 j2 hp hv2
    cases folder with
    | none =>
      constructor <;>
        (rw [createCanvas.eq_def]; simp [canvasFullPath, validateVaultPath_join1, hp, hv2])
    | some fo =>
      constructor <;>
        (rw [createCanvas.eq_def]; simp [canvasFullPath, validateVaultPath_join2, hp, hv2])

/-- Witness for C7 at a concrete input. -/
theorem claim_C7_witness :
    (let r := createCanvas ⟨[("/v/b.canvas", "x")], []⟩ "/v" "b" "\x7b\x7d" none
     r.1 = Except.error (createCanvasExistsError "/v/b.canvas") ∧
     r.2.1.files = [("/v/b.canvas", "x")] ∧
     fsRead r.2.1 "/v/b.canvas" = some "x" ∧
     r.2.2 = [CreateEv.validated, CreateEv.ensuredDir, CreateEv.existsChecked]) :=
  (claim_C7 ⟨[("/v/b.canvas", "x")], []⟩ "/v" "b" "\x7b\x7d" "x" none (Json.obj [])
    rfl rfl rfl).1

/-! ## Trash archiving (claim C8) -/


theorem listIsSuffixOf_append (a b : List Char) : b.isSuffixOf (a ++ b) = true := by
  simp only [List.isSuffixOf, List.reverse_append]
  exact listIsPrefixOf_append _ _

theorem strEndsWith_append (a b : String) : strEndsWith (a ++ b) b = true := by
  rw [strEndsWith, String.data_append]
  exact listIsSuffixOf_append _ _

/-- `ensureDirectory` leaves files untouched. -/
theorem fsRead_ensureDir (fs : Fs) (d p : String) :
    fsRead (ensureDirectory fs d) p = fsRead fs p := rfl

/-- C8: a non-permanent delete-canvas on an existing canvas removes the
original path, places exactly one new `.canvas` file in the vault-local
`.trash` directory under a timestamp-qualified name derived from the
original base name, writes its `.meta.json` sidecar whose
`originalPath` field is the pre-delete vault-relative path, and touches
no other file. -/
theorem claim_C8 (fs : Fs) (vault rel c nowIso1 nowIso2 : String) (reason : Option String)
    (hc : fsRead fs (joinPath vault rel) = some c)
    (hf1 : fsRead fs (trashFilePathOf vault rel nowIso1) = none)
    (hf2 : fsRead fs (trashFilePathOf vault rel nowIso1 ++ ".meta.json") = none) :
    let r := deleteCanvas fs vault rel false reason nowIso1 nowIso2
    r.1 = Except.ok ("Moved canvas \"" ++ rel ++ "\" to trash as \"" ++
      (baseNameCanvas rel ++ "_" ++ sanitizeTimestamp nowIso1 ++ ".canvas") ++ "\"") ∧
    fsRead r.2 (joinPath vault rel) = none ∧
    fsRead r.2 (trashFilePathOf vault rel nowIso1) = some c ∧
    fsRead r.2 (trashFilePathOf vault rel nowIso1 ++ ".meta.json") =
      some (jsonStringify2 (trashMetaJson ⟨rel, nowIso2, reason⟩)) ∧
    jsonField (trashMetaJson ⟨rel, nowIso2, reason⟩) "originalPath" = some (Json.str rel) ∧
    strEndsWith (trashFilePathOf vault rel nowIso1) ".canvas" = true ∧
    (∀ p : String, ¬ p = joinPath vault rel → ¬ p = trashFilePathOf vault rel nowIso1 →
      ¬ p = trashFilePathOf vault rel nowIso1 ++ ".meta.json" →
      fsRead r.2 p = fsRead fs p) := by
  intro r
  have hmetane : ¬ trashFilePathOf vault rel nowIso1 ++ ".meta.json" =
      trashFilePathOf vault rel nowIso1 := append_ne_self _ _ (by decide)
  have htfm : ¬ trashFilePathOf vault rel nowIso1 =
      trashFilePathOf vault rel nowIso1 ++ ".meta.json" := fun h => hmetane h.symm
  have hftf : ¬ joinPath vault rel = trashFilePathOf vault rel nowIso1 := by
    intro h; rw [h, hf1] at hc; exact Option.noConfusion hc
  have hfmp : ¬ joinPath vault rel = trashFilePathOf vault rel nowIso1 ++ ".meta.json" := by
    intro h; rw [h, hf2] at hc; exact Option.noConfusion hc
  have hr : r = (Except.ok ("Moved canvas \"" ++ rel ++ "\" to trash as \"" ++
      (baseNameCanvas rel ++ "_" ++ sanitizeTimestamp nowIso1 ++ ".canvas") ++ "\""),
      fsWrite
        (fsWrite (fsErase (ensureDirectory fs (joinPath vault ".trash")) (joinPath vault rel))
          (trashFilePathOf vault rel nowIso1) c)
        (trashFilePathOf vault rel nowIso1 ++ ".meta.json")
        (jsonStringify2 (trashMetaJson ⟨rel, nowIso2, reason⟩))) := by
    show deleteCanvas fs vault rel false reason nowIso1 nowIso2 = _
    rw [deleteCanvas.eq_def, moveCanvasToTrash.eq_def]
    simp [validateVaultPath_join1, fileExists, hc, fsRead_ensureDir, trashFilePathOf]
  refine ⟨by rw [hr], ?_, ?_, ?_, ?_, ?_, ?_⟩
  · rw [hr]
    simp [fsRead_write_ne _ _ _ _ hfmp, fsRead_write_ne _ _ _ _ hftf, fsRead_erase_self]
  · rw [hr]
    simp [fsRead_write_ne _ _ _ _ htfm, fsRead_write_self]
  · rw [hr]
    simp [fsRead_write_self]
  · cases reason <;> simp [trashMetaJson, jsonField, lookupField]
  · have h : trashFilePathOf vault rel nowIso1 =
        (joinPath (joinPath vault ".trash") (baseNameCanvas rel ++ "_" ++ sanitizeTimestamp nowIso1)) ++ ".canvas" := by
      simp [trashFilePathOf, joinPath, String.append_assoc]
    rw [h]
    exact strEndsWith_append _ _
  · intro p hp1 hp2 hp3
    rw [hr]
    simp [fsRead_write_ne _ _ _ _ hp3, fsRead_write_ne _ _ _ _ hp2,
      fsRead_erase_ne _ _ _ hp1, fsRead_ensureDir]


/-- Witness for C8 at a concrete vault. -/
theorem claim_C8_witness :
    (let r := deleteCanvas ⟨[("/v/board.canvas", "content")], []⟩ "/v" "board.canvas" false
        none "2024-01-02T03:04:05.678Z" "2024-01-02T03:04:05.900Z"
     r.1 = Except.ok ("Moved canvas \"" ++ "board.canvas" ++ "\" to trash as \"" ++
       (baseNameCanvas "board.canvas" ++ "_" ++ sanitizeTimestamp "2024-01-02T03:04:05.678Z" ++
        ".canvas") ++ "\"") ∧
     fsRead r.2 (joinPath "/v" "board.canvas") = none ∧
     fsRead r.2 (trashFilePathOf "/v" "board.canvas" "2024-01-02T03:04:05.678Z") =
       some "content" ∧
     fsRead r.2 (trashFilePathOf "/v" "board.canvas" "2024-01-02T03:04:05.678Z" ++
       ".meta.json") = some (jsonStringify2 (trashMetaJson
         ⟨"board.canvas", "2024-01-02T03:04:05.900Z", none⟩)) ∧
     jsonField (trashMetaJson ⟨"board.canvas", "2024-01-02T03:04:05.900Z", none⟩)
       "originalPath" = some (Json.str "board.canvas") ∧
     strEndsWith (trashFilePathOf "/v" "board.canvas" "2024-01-02T03:04:05.678Z")
       ".canvas" = true ∧
     (∀ p : String, ¬ p = joinPath "/v" "board.canvas" →
       ¬ p = trashFilePathOf "/v" "board.canvas" "2024-01-02T03:04:05.678Z" →
       ¬ p = trashFilePathOf "/v" "board.canvas" "2024-01-02T03:04:05.678Z" ++ ".meta.json" →
       fsRead r.2 p = fsRead ⟨[("/v/board.canvas", "content")], []⟩ p)) :=
  claim_C8 ⟨[("/v/board.canvas", "content")], []⟩ "/v" "board.canvas" "content"
    "2024-01-02T03:04:05.678Z" "2024-01-02T03:04:05.900Z" none rfl rfl rfl

/-! ## Search aggregation policy (claim C9) -/

/-- C9 counterexample: with one per-file read failing and another file
producing a match, the call succeeds but its message is the plain
"Search completed successfully" — the read error is not listed as a
warning (it is only logged), contrary to the claim. -/
theorem claim_C9_counterexample :
    searchVault ⟨Except.ok [], Except.ok ["a.md", "b.md"],
        [("a.md", Except.error "EACCES: permission denied"), ("b.md", Except.ok "hello world")]⟩
      (fun _ => false) "hello" ⟨false, SearchType.content⟩ =
      Except.ok ⟨true, "Search completed successfully",
        [⟨"b.md", [⟨1, "hello world"⟩]⟩], 1, 1⟩ ∧
    envRead ⟨Except.ok [], Except.ok ["a.md", "b.md"],
        [("a.md", Except.error "EACCES: permission denied"), ("b.md", Except.ok "hello world")]⟩
      "a.md" = Except.error "EACCES: permission denied" ∧
    strIncludes "Search completed successfully" "EACCES" = false := by
  refine ⟨?_, rfl, rfl⟩
  rfl

/-- C9 amended: only whole-sub-search failures (filename or content
search throwing) count as errors: with at least one usable result the
call succeeds and its message lists those sub-search errors as
warnings; it escalates to a hard failure exactly when zero results were
produced alongside at least one sub-search error.  Per-file read
failures are skipped and logged only — they never appear in the message
and never cause escalation (the error list is independent of the
per-file read outcomes). -/
theorem claim_C9 (env : SearchEnv) (tagLineMatch : String → Bool) (query : String)
    (options : SearchOptions) (results : List SearchResult) (errors : List String)
    (hsteps : searchSteps env tagLineMatch query options = (results, errors)) :
    ((searchVault env tagLineMatch query options).isOk = false ↔
      (results = [] ∧ ¬ errors = [])) ∧
    (errors = [] →
      searchVault env tagLineMatch query options = Except.ok
        ⟨true, "Search completed successfully", results,
          (results.map (fun r => r.matchList.length)).sum, results.length⟩) ∧
    (¬ results = [] → ¬ errors = [] →
      searchVault env tagLineMatch query options = Except.ok
        ⟨true, "Search completed with warnings:\n" ++ String.intercalate "\n" errors, results,
          (results.map (fun r => r.matchList.length)).sum, results.length⟩) ∧
    (results = [] → ¬ errors = [] →
      searchVault env tagLineMatch query options = Except.error
        (JsErr.mcp ErrKind.internalError ("Search failed:\n" ++ String.intercalate "\n" errors))) ∧
    (∀ reads2 : List (String × Except String String),
      (searchSteps { env with reads := reads2 } tagLineMatch query options).2 = errors) := by
  refine ⟨?_, ?_, ?_, ?_, ?_⟩
  · rw [searchVault]
    by_cases hres : results = [] <;> by_cases herr : errors = [] <;>
      simp [hsteps, hres, herr, Except.isOk, Except.toBool, List.length_pos,
        List.length_eq_zero]
  · intro herr
    rw [searchVault]
    simp [hsteps, herr]
  · intro hres herr
    rw [searchVault]
    simp [hsteps, hres, herr, List.length_pos, List.length_eq_zero]
  · intro hres herr
    rw [searchVault]
    simp [hsteps, hres, herr]
  · intro reads2
    have h2 : errors = (searchSteps env tagLineMatch query options).2 := by rw [hsteps]
    rw [h2, searchSteps, searchSteps]
    rcases options.searchType with _ | _ | _ <;>
      rcases hf : env.filenameFiles with _ | _ <;>
      rcases hcf : env.contentFiles with _ | _ <;>
        simp [searchFilenames, searchContent, hf, hcf]


/-- Witness for C9: a failed content sub-search with no results
escalates. -/
theorem claim_C9_witness :
    ((searchVault ⟨Except.ok [], Except.error "EIO: boom", []⟩ (fun _ => false) "hello"
        ⟨false, SearchType.content⟩).isOk = false ↔
      (([] : List SearchResult) = [] ∧
        ¬ (["Content search error: Failed to search content: EIO: boom"] : List String) = [])) :=
  (claim_C9 ⟨Except.ok [], Except.error "EIO: boom", []⟩ (fun _ => false) "hello"
    ⟨false, SearchType.content⟩ [] ["Content search error: Failed to search content: EIO: boom"]
    rfl).1

/-! ## list-files (claim C10) -/


theorem slash_append_ne_empty (a b : String) : ¬ a ++ "/" ++ b = "" := by
  apply string_length_ne_imp_ne
  have h1 : "/".length = 1 := rfl
  have h0 : ("" : String).length = 0 := rfl
  rw [String.length_append, String.length_append, h1, h0]
  omega

theorem mkRel_ne_empty (pre n : String) (hn : ¬ n = "") : ¬ mkRel pre n = "" := by
  unfold mkRel
  by_cases hpre : pre = ""
  · simp [hpre, hn]
  · simp [hpre]
    exact slash_append_ne_empty pre n

theorem mkRel_joinComps_step (pre n : String) (comps : List String)
    (hne : ¬ comps = []) (hn : ¬ n = "") :
    mkRel pre (joinComps (n :: comps)) = mkRel (mkRel pre n) (joinComps comps) := by
  cases comps with
  | nil => exact absurd rfl hne
  | cons c rest =>
    have hj : joinComps (n :: c :: rest) = n ++ "/" ++ joinComps (c :: rest) := rfl
    rw [hj]
    by_cases hpre : pre = ""
    · simp [mkRel, hpre, hn]
    · have hmk : ¬ pre ++ ("/" ++ n) = "" := by
        have h2 := slash_append_ne_empty pre n
        rwa [String.append_assoc] at h2
      simp [mkRel, hpre, hn, String.append_assoc, hmk]

mutual

theorem mem_listEntry (pre p : String) (e : FsTree)
    (hok : entryNamesOk e = true)
    (hskip : (ignoredNames.contains (entryName e) || strStartsWith (entryName e) ".") = false)
    (h : p ∈ listEntryFiles pre e) :
    ∃ comps : List String, ¬ comps = [] ∧
      (∀ c ∈ comps,
        (ignoredNames.contains c || strStartsWith c ".") = false ∧ nameOk c = true) ∧
      p = mkRel pre (joinComps comps) ∧
      isFileAtEntry e comps = true := by
  cases e with
  | file n =>
    have hp : p = mkRel pre n := by
      simpa [listEntryFiles] using h
    refine ⟨[n], by simp, ?_, by simpa [joinComps] using hp, by simp [isFileAtEntry]⟩
    intro c hc
    simp at hc
    subst hc
    exact ⟨hskip, by simpa [entryNamesOk] using hok⟩
  | dir n readable cs =>
    cases readable with
    | false => simp [listEntryFiles] at h
    | true =>
      have h2 : p ∈ listFilesRecursive (mkRel pre n) cs := by
        simpa [listEntryFiles] using h
      have hok2 : namesOkList cs = true := by
        simp [entryNamesOk] at hok
        exact hok.2
      have hnOk : nameOk n = true := by
        simp [entryNamesOk] at hok
        exact hok.1
      obtain ⟨comps, hne, hclean, hpath, hat⟩ := mem_listRec (mkRel pre n) p cs hok2 h2
      have hn : ¬ n = "" := by
        intro hh
        simp [nameOk, hh] at hnOk
      refine ⟨n :: comps, by simp, ?_, ?_, ?_⟩
      · intro c hc
        rcases List.mem_cons.mp hc with hc | hc
        · subst hc
          exact ⟨hskip, hnOk⟩
        · exact hclean c hc
      · rw [mkRel_joinComps_step pre n comps hne hn]
        exact hpath
      · cases comps with
        | nil => exact absurd rfl hne
        | cons r rest =>
          simp [isFileAtEntry, hat]
  | other n => simp [listEntryFiles] at h

theorem mem_listRec (pre p : String) (es : List FsTree)
    (hok : namesOkList es = true)
    (h : p ∈ listFilesRecursive pre es) :
    ∃ comps : List String, ¬ comps = [] ∧
      (∀ c ∈ comps,
        (ignoredNames.contains c || strStartsWith c ".") = false ∧ nameOk c = true) ∧
      p = mkRel pre (joinComps comps) ∧
      isFileAtList es comps = true := by
  cases es with
  | nil => simp [listFilesRecursive] at h
  | cons e es =>
    have hokE : entryNamesOk e = true := by
      simp [namesOkList] at hok
      exact hok.1
    have hokEs : namesOkList es = true := by
      simp [namesOkList] at hok
      exact hok.2
    rw [listFilesRecursive] at h
    cases hskip : (ignoredNames.contains (entryName e) || strStartsWith (entryName e) ".") with
    | true =>
      rw [hskip] at h
      simp only [if_pos rfl, List.nil_append] at h
      obtain ⟨comps, hne, hclean, hpath, hat⟩ := mem_listRec pre p es hokEs h
      exact ⟨comps, hne, hclean, hpath, by simp [isFileAtList, hat]⟩
    | false =>
      rw [hskip] at h
      simp only [Bool.false_eq_true, if_neg, if_false] at h
      rcases List.mem_append.mp h with h1 | h2
      · obtain ⟨comps, hne, hclean, hpath, hat⟩ := mem_listEntry pre p e hokE hskip h1
        exact ⟨comps, hne, hclean, hpath, by simp [isFileAtList, hat]⟩
      · obtain ⟨comps, hne, hclean, hpath, hat⟩ := mem_listRec pre p es hokEs h2
        exact ⟨comps, hne, hclean, hpath, by simp [isFileAtList, hat]⟩

end


/-- C10: every path returned by list-files is the `/`-join of a
non-empty component sequence that leads to a regular file in the vault
tree, no component starts with `.` or equals `node_modules`, and the
returned list is sorted ascending; assumes the well-formedness of real
directory-entry names (non-empty, no separator). -/
theorem claim_C10 (rootEntries : List FsTree) (hok : namesOkList rootEntries = true) :
    (∀ p ∈ listVaultFiles rootEntries,
      ∃ comps : List String, ¬ comps = [] ∧ p = joinComps comps ∧
        (∀ c ∈ comps, strStartsWith c "." = false ∧ ¬ c = "node_modules" ∧ nameOk c = true) ∧
        isFileAtList rootEntries comps = true) ∧
    List.Pairwise (fun a b : String => a ≤ b) (listVaultFiles rootEntries) := by
  constructor
  · intro p hp
    have hp2 : p ∈ listFilesRecursive "" rootEntries := by
      rw [listVaultFiles] at hp
      exact List.mem_mergeSort.mp hp
    obtain ⟨comps, hne, hclean, hpath, hat⟩ := mem_listRec "" p rootEntries hok hp2
    refine ⟨comps, hne, by simpa [mkRel] using hpath, ?_, hat⟩
    intro c hc
    obtain ⟨hskipc, hnameOk⟩ := hclean c hc
    have h1 : ignoredNames.contains c = false ∧ strStartsWith c "." = false := by
      cases h1 : ignoredNames.contains c <;> cases h2 : strStartsWith c "." <;>
        rw [h1, h2] at hskipc <;> simp_all
    refine ⟨h1.2, ?_, hnameOk⟩
    intro hcc
    subst hcc
    have : ignoredNames.contains "node_modules" = true := by decide
    rw [h1.1] at this
    exact Bool.noConfusion this
  · rw [listVaultFiles]
    have htrans : ∀ a b c : String,
        decide (a ≤ b) = true → decide (b ≤ c) = true → decide (a ≤ c) = true := by
      intro a b c hab hbc
      simp only [decide_eq_true_eq] at *
      exact le_trans hab hbc
    have htotal : ∀ a b : String, (decide (a ≤ b) || decide (b ≤ a)) = true := by
      intro a b
      simp only [Bool.or_eq_true, decide_eq_true_eq]
      exact le_total a b
    have hs := List.sorted_mergeSort htrans htotal (listFilesRecursive "" rootEntries)
    exact hs.imp (fun h => by simpa using h)

/-- Witness for C10 on a small concrete tree. -/
theorem claim_C10_witness :
    (∀ p ∈ listVaultFiles [FsTree.file "b.md", FsTree.dir ".trash" true [FsTree.file "x.md"],
        FsTree.dir "sub" true [FsTree.file "a.md"]],
      ∃ comps : List String, ¬ comps = [] ∧ p = joinComps comps ∧
        (∀ c ∈ comps, strStartsWith c "." = false ∧ ¬ c = "node_modules" ∧ nameOk c = true) ∧
        isFileAtList [FsTree.file "b.md", FsTree.dir ".trash" true [FsTree.file "x.md"],
          FsTree.dir "sub" true [FsTree.file "a.md"]] comps = true) ∧
    List.Pairwise (fun a b : String => a ≤ b)
      (listVaultFiles [FsTree.file "b.md", FsTree.dir ".trash" true [FsTree.file "x.md"],
        FsTree.dir "sub" true [FsTree.file "a.md"]]) :=
  claim_C10 _ rfl


/-! ## Canvas schema refinement (claim C5) -/

theorem checkField_nil {check : Json → List String} {pred : Json → Bool}
    (hcp : ∀ v, pred v = true → check v = [])
    (path : List PathSeg) (fields : List (String × Json)) (k : String) (req : Bool)
    (h : fieldOk fields k req pred = true) :
    checkField path fields k req check = [] := by
  rw [checkField]
  rw [fieldOk] at h
  cases hl : lookupField fields k with
  | none =>
    rw [hl] at h
    cases req with
    | true => simp at h
    | false => simp
  | some v =>
    rw [hl] at h
    simp [hcp v h]

theorem strictIssues_nil (path : List PathSeg) (fields : List (String × Json))
    (allowed : List String) (custom : Option String)
    (h : keysAllowed fields allowed = true) :
    strictIssues path fields allowed custom = [] := by
  rw [strictIssues, unknownKeys]
  rw [keysAllowed] at h
  have hfil : (fields.map (fun p => p.1)).filter (fun k => !allowed.contains k) = [] := by
    rw [List.filter_eq_nil_iff]
    intro a ha
    have hc := (List.all_eq_true.mp h) a ha
    simp at hc ⊢
    exact hc
  rw [hfil]

theorem checkStringMin1_compat : ∀ v, specStr1 v = true → checkStringMin1 v = [] := by
  intro v h
  cases v <;> simp [specStr1] at h <;> simp [checkStringMin1, h]

theorem checkString_compat : ∀ v, specStr v = true → checkString v = [] := by
  intro v h
  cases v <;> simp [specStr] at h <;> simp [checkString]

theorem checkInt_compat : ∀ v, specInt v = true → checkInt v = [] := by
  intro v h
  cases v with
  | num isInt val =>
    rw [specInt] at h
    subst h
    rfl
  | _ => simp [specInt] at h

theorem checkPosInt_compat : ∀ v, specPosInt v = true → checkPosInt v = [] := by
  intro v h
  cases v with
  | num isInt val =>
    rw [specPosInt] at h
    simp only [Bool.and_eq_true, decide_eq_true_eq] at h
    obtain ⟨h1, h2⟩ := h
    subst h1
    simp [checkPosInt, h2]
  | _ => simp [specPosInt] at h

theorem checkColor_compat : ∀ v, specColor v = true → checkColor v = [] := by
  intro v h
  cases v <;> simp [specColor] at h <;> simp [checkColor, h]

theorem checkSubpath_compat : ∀ v, specSubpath v = true → checkSubpath v = [] := by
  intro v h
  cases v <;> simp [specSubpath] at h <;> simp [checkSubpath, h]

theorem checkUrl_compat : ∀ v, specUrl v = true → checkUrl v = [] := by
  intro v h
  cases v <;> simp [specUrl] at h <;> simp [checkUrl, h]

theorem checkEnum_compat (opts : List String) :
    ∀ v, specEnum opts v = true → checkEnum opts v = [] := by
  intro v h
  cases v <;> simp [specEnum] at h <;> simp [checkEnum, h]

/-- The base-attribute conformance of a node, as in `specConformsNode`. -/
theorem baseChecks_nil (path : List PathSeg) (fields : List (String × Json))
    (h : (fieldOk fields "id" true specStr1 &&
          fieldOk fields "x" true specInt &&
          fieldOk fields "y" true specInt &&
          fieldOk fields "width" true specPosInt &&
          fieldOk fields "height" true specPosInt &&
          fieldOk fields "color" false specColor) = true) :
    baseChecks path fields = [] := by
  simp only [Bool.and_eq_true] at h
  obtain ⟨⟨⟨⟨⟨h1, h2⟩, h3⟩, h4⟩, h5⟩, h6⟩ := h
  rw [baseChecks]
  rw [checkField_nil checkStringMin1_compat _ _ _ _ h1,
      checkField_nil checkInt_compat _ _ _ _ h2,
      checkField_nil checkInt_compat _ _ _ _ h3,
      checkField_nil checkPosInt_compat _ _ _ _ h4,
      checkField_nil checkPosInt_compat _ _ _ _ h5,
      checkField_nil checkColor_compat _ _ _ _ h6]
  rfl


theorem nodeIssues_nil (path : List PathSeg) (j : Json)
    (h : specConformsNode j = true) : nodeIssues path j = [] := by
  cases j with
  | obj fields =>
    rw [specConformsNode] at h
    simp only [Bool.and_eq_true] at h
    obtain ⟨hbase, hvar⟩ := h
    rw [nodeIssues]
    split at hvar
    case _ t heq =>
      split at hvar
      · rw [if_pos (by assumption)]
        simp only [Bool.and_eq_true] at hvar
        rw [baseChecks_nil _ _ (by simp [Bool.and_eq_true]; tauto),
            checkField_nil checkString_compat _ _ _ _ hvar.1,
            strictIssues_nil _ _ _ _ hvar.2]
        rfl
      · split at hvar
        · rw [if_neg (by assumption), if_pos (by assumption)]
          simp only [Bool.and_eq_true] at hvar
          rw [baseChecks_nil _ _ (by simp [Bool.and_eq_true]; tauto),
              checkField_nil checkStringMin1_compat _ _ _ _ hvar.1.1,
              checkField_nil checkSubpath_compat _ _ _ _ hvar.1.2,
              strictIssues_nil _ _ _ _ hvar.2]
          rfl
        · split at hvar
          · rw [if_neg (by assumption), if_neg (by assumption), if_pos (by assumption)]
            simp only [Bool.and_eq_true] at hvar
            rw [baseChecks_nil _ _ (by simp [Bool.and_eq_true]; tauto),
                checkField_nil checkUrl_compat _ _ _ _ hvar.1,
                strictIssues_nil _ _ _ _ hvar.2]
            rfl
          · split at hvar
            · rw [if_neg (by assumption), if_neg (by assumption), if_neg (by assumption),
                  if_pos (by assumption)]
              simp only [Bool.and_eq_true] at hvar
              rw [baseChecks_nil _ _ (by simp [Bool.and_eq_true]; tauto),
                  checkField_nil checkString_compat _ _ _ _ hvar.1.1.1,
                  checkField_nil checkString_compat _ _ _ _ hvar.1.1.2,
                  checkField_nil (checkEnum_compat bgStyles) _ _ _ _ hvar.1.2,
                  strictIssues_nil _ _ _ _ hvar.2]
              rfl
            · exact absurd hvar (by simp)
    case _ x heq1 heq2 => exact absurd hvar (by simp)
    case _ heq => exact absurd hvar (by simp)
  | null => simp [specConformsNode] at h
  | bool b => simp [specConformsNode] at h
  | num a b => simp [specConformsNode] at h
  | str s => simp [specConformsNode] at h
  | arr xs => simp [specConformsNode] at h


theorem edgeIssues_nil (path : List PathSeg) (j : Json)
    (h : specConformsEdge j = true) : edgeIssues path j = [] := by
  cases j with
  | obj fields =>
    rw [specConformsEdge] at h
    simp only [Bool.and_eq_true] at h
    obtain ⟨⟨⟨⟨⟨⟨⟨⟨⟨h1, h2⟩, h3⟩, h4⟩, h5⟩, h6⟩, h7⟩, h8⟩, h9⟩, h10⟩ := h
    rw [edgeIssues]
    rw [checkField_nil checkStringMin1_compat _ _ _ _ h1,
        checkField_nil checkStringMin1_compat _ _ _ _ h2,
        checkField_nil (checkEnum_compat sideOpts) _ _ _ _ h3,
        checkField_nil (checkEnum_compat endOpts) _ _ _ _ h4,
        checkField_nil checkStringMin1_compat _ _ _ _ h5,
        checkField_nil (checkEnum_compat sideOpts) _ _ _ _ h6,
        checkField_nil (checkEnum_compat endOpts) _ _ _ _ h7,
        checkField_nil checkColor_compat _ _ _ _ h8,
        checkField_nil checkString_compat _ _ _ _ h9,
        strictIssues_nil _ _ _ _ h10]
    rfl
  | null => simp [specConformsEdge] at h
  | bool b => simp [specConformsEdge] at h
  | num a b => simp [specConformsEdge] at h
  | str s => simp [specConformsEdge] at h
  | arr xs => simp [specConformsEdge] at h

theorem arrayIssues_nil (path : List PathSeg) (f : List PathSeg → Json → List Issue)
    (conf : Json → Bool) (hf : ∀ p v, conf v = true → f p v = []) :
    ∀ (xs : List Json) (i : Nat), xs.all conf = true → arrayIssues path f i xs = [] := by
  intro xs
  induction xs with
  | nil => intro i _; rfl
  | cons x rest ih =>
    intro i hall
    simp only [List.all_cons, Bool.and_eq_true] at hall
    rw [arrayIssues, hf _ _ hall.1, ih (i + 1) hall.2]
    rfl

/-- Acceptance direction of C5: every value conforming to the §3 data
model is accepted by the source validator. -/
theorem canvasSchemaIssues_nil (j : Json) (h : specConformsCanvas j = true) :
    canvasSchemaIssues j = [] := by
  cases j with
  | obj fields =>
    rw [specConformsCanvas] at h
    simp only [Bool.and_eq_true] at h
    obtain ⟨⟨hkeys, hnodes⟩, hedges⟩ := h
    rw [canvasSchemaIssues]
    rw [strictIssues_nil _ _ _ _ hkeys]
    have hn : (match lookupField fields "nodes" with
        | none => []
        | some (Json.arr xs) => arrayIssues [PathSeg.key "nodes"] nodeIssues 0 xs
        | some v => [([PathSeg.key "nodes"], expectedMsg "array" v)]) = ([] : List Issue) := by
      split at hnodes
      · rfl
      case _ xs heq =>
        exact arrayIssues_nil _ _ _ nodeIssues_nil xs 0 hnodes
      case _ => exact absurd hnodes (by simp)
    have he : (match lookupField fields "edges" with
        | none => []
        | some (Json.arr xs) => arrayIssues [PathSeg.key "edges"] edgeIssues 0 xs
        | some v => [([PathSeg.key "edges"], expectedMsg "array" v)]) = ([] : List Issue) := by
      split at hedges
      · rfl
      case _ xs heq =>
        exact arrayIssues_nil _ _ _ edgeIssues_nil xs 0 hedges
      case _ => exact absurd hedges (by simp)
    rw [hn, he]
    rfl
  | null => simp [specConformsCanvas] at h
  | bool b => simp [specConformsCanvas] at h
  | num a b => simp [specConformsCanvas] at h
  | str s => simp [specConformsCanvas] at h
  | arr xs => simp [specConformsCanvas] at h

theorem contains_false_of_not_mem {l : List String} {k : String} (h : ¬ k ∈ l) :
    l.contains k = false := by simpa using h

theorem ne_of_not_mem {l : List String} {k a : String} (h : ¬ k ∈ l) (ha : a ∈ l) :
    ¬ k = a := fun hh => h (hh ▸ ha)

theorem lookupField_append_ne (fields : List (String × Json)) (k k2 : String) (v : Json)
    (h : ¬ k = k2) :
    lookupField (fields ++ [(k, v)]) k2 = lookupField fields k2 := by
  induction fields with
  | nil => simp [lookupField, h]
  | cons p t ih =>
    by_cases hp : p.1 = k2 <;> simp [lookupField, hp, ih]

theorem checkField_append (path : List PathSeg) (fields : List (String × Json))
    (k k2 : String) (v : Json) (req : Bool) (check : Json → List String) (h : ¬ k = k2) :
    checkField path (fields ++ [(k, v)]) k2 req check = checkField path fields k2 req check := by
  rw [checkField, checkField, lookupField_append_ne fields k k2 v h]

theorem unknownKeys_append (fields : List (String × Json)) (allowed : List String)
    (k : String) (v : Json) (hclean : keysAllowed fields allowed = true)
    (hk : ¬ k ∈ allowed) :
    unknownKeys (fields ++ [(k, v)]) allowed = [k] := by
  rw [unknownKeys, List.map_append, List.filter_append]
  have h1 : (fields.map (fun p => p.1)).filter (fun k => !allowed.contains k) = [] := by
    rw [List.filter_eq_nil_iff]
    intro a ha
    have hc := (List.all_eq_true.mp hclean) a ha
    simp at hc ⊢
    exact hc
  have h2 : (([(k, v)].map (fun p => p.1)).filter (fun k => !allowed.contains k)) = [k] := by
    simp
    exact hk
  rw [h1, h2]
  rfl

theorem strictIssues_append (path : List PathSeg) (fields : List (String × Json))
    (allowed : List String) (custom : Option String) (k : String) (v : Json)
    (hclean : keysAllowed fields allowed = true) (hk : ¬ k ∈ allowed) :
    strictIssues path (fields ++ [(k, v)]) allowed custom =
      [(path, match custom with | some m => m | none => unrecognizedMsg [k])] := by
  rw [strictIssues, unknownKeys_append fields allowed k v hclean hk]

theorem baseChecks_append (path : List PathSeg) (fields : List (String × Json))
    (k : String) (v : Json)
    (hid : ¬ k = "id") (hx : ¬ k = "x") (hy : ¬ k = "y") (hw : ¬ k = "width")
    (hh : ¬ k = "height") (hc : ¬ k = "color") :
    baseChecks path (fields ++ [(k, v)]) = baseChecks path fields := by
  rw [baseChecks, baseChecks,
      checkField_append _ _ _ _ _ _ _ hid,
      checkField_append _ _ _ _ _ _ _ hx,
      checkField_append _ _ _ _ _ _ _ hy,
      checkField_append _ _ _ _ _ _ _ hw,
      checkField_append _ _ _ _ _ _ _ hh,
      checkField_append _ _ _ _ _ _ _ hc]


theorem nodeIssues_extend (path : List PathSeg) (nf : List (String × Json)) (k : String)
    (v : Json) (hconf : specConformsNode (Json.obj nf) = true)
    (hk : ¬ k ∈ nodeAllowedKeys nf) :
    nodeIssues path (Json.obj (nf ++ [(k, v)])) = [(path, unrecognizedMsg [k])] := by
  rw [specConformsNode] at hconf
  simp only [Bool.and_eq_true] at hconf
  obtain ⟨hbase, hvar⟩ := hconf
  split at hvar
  case _ t heq =>
    split at hvar
    case isTrue ht =>
      have hEq : nodeAllowedKeys nf = textAllowed := by
        rw [nodeAllowedKeys.eq_def, heq]
        simp [ht]
      rw [hEq] at hk
      have hkt : ¬ k = "type" := ne_of_not_mem hk (by decide)
      have hlookup : lookupField (nf ++ [(k, v)]) "type" = some (Json.str t) := by
        rw [lookupField_append_ne _ _ _ _ hkt]
        exact heq
      simp only [Bool.and_eq_true] at hvar
      subst ht
      rw [nodeIssues, hlookup]
      simp only []
      rw [if_pos trivial]
      rw [baseChecks_append _ _ _ _ (ne_of_not_mem hk (by decide))
            (ne_of_not_mem hk (by decide)) (ne_of_not_mem hk (by decide))
            (ne_of_not_mem hk (by decide)) (ne_of_not_mem hk (by decide))
            (ne_of_not_mem hk (by decide)),
          checkField_append _ _ _ _ _ _ _ (ne_of_not_mem hk (by decide)),
          baseChecks_nil _ _ (by simp [Bool.and_eq_true]; tauto),
          checkField_nil checkString_compat _ _ _ _ hvar.1,
          strictIssues_append _ _ _ _ _ _ hvar.2 hk]
      rfl
    case isFalse ht =>
      split at hvar
      case isTrue hf =>
        have hEq : nodeAllowedKeys nf = fileAllowed := by
          rw [nodeAllowedKeys.eq_def, heq]
          simp [ht, hf]
        rw [hEq] at hk
        have hkt : ¬ k = "type" := ne_of_not_mem hk (by decide)
        have hlookup : lookupField (nf ++ [(k, v)]) "type" = some (Json.str t) := by
          rw [lookupField_append_ne _ _ _ _ hkt]
          exact heq
        simp only [Bool.and_eq_true] at hvar
        subst hf
        rw [nodeIssues, hlookup]
        simp only []
        rw [if_neg (by decide), if_pos trivial]
        rw [baseChecks_append _ _ _ _ (ne_of_not_mem hk (by decide))
              (ne_of_not_mem hk (by decide)) (ne_of_not_mem hk (by decide))
              (ne_of_not_mem hk (by decide)) (ne_of_not_mem hk (by decide))
              (ne_of_not_mem hk (by decide)),
            checkField_append _ _ _ _ _ _ _ (ne_of_not_mem hk (by decide)),
            checkField_append _ _ _ _ _ _ _ (ne_of_not_mem hk (by decide)),
            baseChecks_nil _ _ (by simp [Bool.and_eq_true]; tauto),
            checkField_nil checkStringMin1_compat _ _ _ _ hvar.1.1,
            checkField_nil checkSubpath_compat _ _ _ _ hvar.1.2,
            strictIssues_append _ _ _ _ _ _ hvar.2 hk]
        rfl
      case isFalse hf =>
        split at hvar
        case isTrue hl =>
          have hEq : nodeAllowedKeys nf = linkAllowed := by
            rw [nodeAllowedKeys.eq_def, heq]
            simp [ht, hf, hl]
          rw [hEq] at hk
          have hkt : ¬ k = "type" := ne_of_not_mem hk (by decide)
          have hlookup : lookupField (nf ++ [(k, v)]) "type" = some (Json.str t) := by
            rw [lookupField_append_ne _ _ _ _ hkt]
            exact heq
          simp only [Bool.and_eq_true] at hvar
          subst hl
          rw [nodeIssues, hlookup]
          simp only []
          rw [if_neg (by decide), if_neg (by decide), if_pos trivial]
          rw [baseChecks_append _ _ _ _ (ne_of_not_mem hk (by decide))
                (ne_of_not_mem hk (by decide)) (ne_of_not_mem hk (by decide))
                (ne_of_not_mem hk (by decide)) (ne_of_not_mem hk (by decide))
                (ne_of_not_mem hk (by decide)),
              checkField_append _ _ _ _ _ _ _ (ne_of_not_mem hk (by decide)),
              baseChecks_nil _ _ (by simp [Bool.and_eq_true]; tauto),
              checkField_nil checkUrl_compat _ _ _ _ hvar.1,
              strictIssues_append _ _ _ _ _ _ hvar.2 hk]
          rfl
        case isFalse hl =>
          split at hvar
          case isTrue hg =>
            have hEq : nodeAllowedKeys nf = groupAllowed := by
              rw [nodeAllowedKeys.eq_def, heq]
              simp [ht, hf, hl, hg]
            rw [hEq] at hk
            have hkt : ¬ k = "type" := ne_of_not_mem hk (by decide)
            have hlookup : lookupField (nf ++ [(k, v)]) "type" = some (Json.str t) := by
              rw [lookupField_append_ne _ _ _ _ hkt]
              exact heq
            simp only [Bool.and_eq_true] at hvar
            subst hg
            rw [nodeIssues, hlookup]
            simp only []
            rw [if_neg (by decide), if_neg (by decide), if_neg (by decide), if_pos trivial]
            rw [baseChecks_append _ _ _ _ (ne_of_not_mem hk (by decide))
                  (ne_of_not_mem hk (by decide)) (ne_of_not_mem hk (by decide))
                  (ne_of_not_mem hk (by decide)) (ne_of_not_mem hk (by decide))
                  (ne_of_not_mem hk (by decide)),
                checkField_append _ _ _ _ _ _ _ (ne_of_not_mem hk (by decide)),
                checkField_append _ _ _ _ _ _ _ (ne_of_not_mem hk (by decide)),
                checkField_append _ _ _ _ _ _ _ (ne_of_not_mem hk (by decide)),
                baseChecks_nil _ _ (by simp [Bool.and_eq_true]; tauto),
                checkField_nil checkString_compat _ _ _ _ hvar.1.1.1,
                checkField_nil checkString_compat _ _ _ _ hvar.1.1.2,
                checkField_nil (checkEnum_compat bgStyles) _ _ _ _ hvar.1.2,
                strictIssues_append _ _ _ _ _ _ hvar.2 hk]
            rfl
          case isFalse hg => exact absurd hvar (by simp)
  case _ x heq1 heq2 => exact absurd hvar (by simp)
  case _ heq => exact absurd hvar (by simp)

theorem edgeIssues_extend (path : List PathSeg) (ef : List (String × Json)) (k : String)
    (v : Json) (hconf : specConformsEdge (Json.obj ef) = true)
    (hk : ¬ k ∈ edgeAllowed) :
    edgeIssues path (Json.obj (ef ++ [(k, v)])) = [(path, unrecognizedMsg [k])] := by
  rw [specConformsEdge] at hconf
  simp only [Bool.and_eq_true] at hconf
  obtain ⟨⟨⟨⟨⟨⟨⟨⟨⟨h1, h2⟩, h3⟩, h4⟩, h5⟩, h6⟩, h7⟩, h8⟩, h9⟩, h10⟩ := hconf
  rw [edgeIssues]
  rw [checkField_append _ _ _ _ _ _ _ (ne_of_not_mem hk (by decide)),
      checkField_append _ _ _ _ _ _ _ (ne_of_not_mem hk (by decide)),
      checkField_append _ _ _ _ _ _ _ (ne_of_not_mem hk (by decide)),
      checkField_append _ _ _ _ _ _ _ (ne_of_not_mem hk (by decide)),
      checkField_append _ _ _ _ _ _ _ (ne_of_not_mem hk (by decide)),
      checkField_append _ _ _ _ _ _ _ (ne_of_not_mem hk (by decide)),
      checkField_append _ _ _ _ _ _ _ (ne_of_not_mem hk (by decide)),
      checkField_append _ _ _ _ _ _ _ (ne_of_not_mem hk (by decide)),
      checkField_append _ _ _ _ _ _ _ (ne_of_not_mem hk (by decide)),
      checkField_nil checkStringMin1_compat _ _ _ _ h1,
      checkField_nil checkStringMin1_compat _ _ _ _ h2,
      checkField_nil (checkEnum_compat sideOpts) _ _ _ _ h3,
      checkField_nil (checkEnum_compat endOpts) _ _ _ _ h4,
      checkField_nil checkStringMin1_compat _ _ _ _ h5,
      checkField_nil (checkEnum_compat sideOpts) _ _ _ _ h6,
      checkField_nil (checkEnum_compat endOpts) _ _ _ _ h7,
      checkField_nil checkColor_compat _ _ _ _ h8,
      checkField_nil checkString_compat _ _ _ _ h9,
      strictIssues_append _ _ _ _ _ _ h10 hk]
  rfl

theorem arrayIssues_single (path : List PathSeg) (f : List PathSeg → Json → List Issue)
    (conf : Json → Bool) (hf : ∀ p v, conf v = true → f p v = [])
    (x : Json) (msg : String)
    (hx : ∀ i : Nat, f (path ++ [PathSeg.idx i]) x = [(path ++ [PathSeg.idx i], msg)]) :
    ∀ (ns1 ns2 : List Json) (i : Nat), ns1.all conf = true → ns2.all conf = true →
      arrayIssues path f i (ns1 ++ x :: ns2) =
        [(path ++ [PathSeg.idx (i + ns1.length)], msg)] := by
  intro ns1
  induction ns1 with
  | nil =>
    intro ns2 i _ h2
    rw [List.nil_append, arrayIssues, hx i,
      arrayIssues_nil path f conf hf ns2 (i + 1) h2]
    simp
  | cons y ys ih =>
    intro ns2 i h1 h2
    simp only [List.all_cons, Bool.and_eq_true] at h1
    rw [List.cons_append, arrayIssues, hf _ _ h1.1, ih ns2 (i + 1) h1.2 h2]
    have harith : i + 1 + ys.length = i + (y :: ys).length := by
      simp [List.length_cons]
      omega
    rw [harith]
    rfl


theorem lookupField_update_self (fields : List (String × Json)) (k : String) (nv old : Json)
    (h : lookupField fields k = some old) :
    lookupField (updateField fields k nv) k = some nv := by
  induction fields with
  | nil => simp [lookupField] at h
  | cons p t ih =>
    by_cases hp : p.1 = k
    · simp [updateField, lookupField, hp]
    · rw [lookupField, if_neg hp] at h
      simp only [updateField, List.map_cons, lookupField, if_neg hp]
      exact ih h

theorem lookupField_update_ne (fields : List (String × Json)) (k k2 : String) (nv : Json)
    (h : ¬ k2 = k) :
    lookupField (updateField fields k nv) k2 = lookupField fields k2 := by
  induction fields with
  | nil => rfl
  | cons p t ih =>
    by_cases hp : p.1 = k
    · have hpk2 : ¬ p.1 = k2 := by rw [hp]; exact fun hh => h hh.symm
      simp only [updateField, List.map_cons, if_pos hp, lookupField]
      rw [if_neg (by simpa using hpk2), if_neg hpk2]
      exact ih
    · by_cases hp2 : p.1 = k2
      · simp [updateField, lookupField, hp, hp2, h]
      · simp only [updateField, List.map_cons, if_neg hp, lookupField, if_neg hp2]
        exact ih

theorem keysAllowed_update (fields : List (String × Json)) (k : String) (nv : Json)
    (allowed : List String) :
    keysAllowed (updateField fields k nv) allowed = keysAllowed fields allowed := by
  rw [keysAllowed, keysAllowed]
  have hmap : (updateField fields k nv).map (fun p => p.1) = fields.map (fun p => p.1) := by
    induction fields with
    | nil => rfl
    | cons p t ih =>
      by_cases hp : p.1 = k <;> simp [updateField, hp] at ih ⊢ <;> exact ih
  rw [hmap]

theorem nodesMatch_nil (fields : List (String × Json))
    (hnodes : (match lookupField fields "nodes" with
      | none => true
      | some (Json.arr xs) => xs.all specConformsNode
      | some _ => false) = true) :
    (match lookupField fields "nodes" with
      | none => ([] : List Issue)
      | some (Json.arr xs) => arrayIssues [PathSeg.key "nodes"] nodeIssues 0 xs
      | some v => [([PathSeg.key "nodes"], expectedMsg "array" v)]) = [] := by
  split at hnodes
  · rfl
  case _ xs heq => exact arrayIssues_nil _ _ _ nodeIssues_nil xs 0 hnodes
  case _ => exact absurd hnodes (by simp)

theorem edgesMatch_nil (fields : List (String × Json))
    (hedges : (match lookupField fields "edges" with
      | none => true
      | some (Json.arr xs) => xs.all specConformsEdge
      | some _ => false) = true) :
    (match lookupField fields "edges" with
      | none => ([] : List Issue)
      | some (Json.arr xs) => arrayIssues [PathSeg.key "edges"] edgeIssues 0 xs
      | some v => [([PathSeg.key "edges"], expectedMsg "array" v)]) = [] := by
  split at hedges
  · rfl
  case _ xs heq => exact arrayIssues_nil _ _ _ edgeIssues_nil xs 0 hedges
  case _ => exact absurd hedges (by simp)

/-- Adding an unknown top-level key to a conforming document yields
exactly the custom top-level strict issue at the root path. -/
theorem canvasIssues_top_extend (fields : List (String × Json)) (k : String) (v : Json)
    (hconf : specConformsCanvas (Json.obj fields) = true)
    (hk : ¬ k ∈ (["nodes", "edges"] : List String)) :
    canvasSchemaIssues (Json.obj (fields ++ [(k, v)])) = [([], topMsg)] := by
  rw [specConformsCanvas] at hconf
  simp only [Bool.and_eq_true] at hconf
  obtain ⟨⟨hkeys, hnodes⟩, hedges⟩ := hconf
  have hkn : ¬ k = "nodes" := ne_of_not_mem hk (by decide)
  have hke : ¬ k = "edges" := ne_of_not_mem hk (by decide)
  rw [canvasSchemaIssues]
  rw [strictIssues_append _ _ _ _ _ _ hkeys hk,
      lookupField_append_ne _ _ _ _ hkn, lookupField_append_ne _ _ _ _ hke,
      nodesMatch_nil fields hnodes, edgesMatch_nil fields hedges]
  rfl

/-- Adding an unknown key to one node of a conforming document yields
exactly the unrecognized-key issue at that node's indexed path. -/
theorem canvasIssues_node_extend (fields nf : List (String × Json)) (ns1 ns2 : List Json)
    (k : String) (v : Json)
    (hconf : specConformsCanvas (Json.obj fields) = true)
    (hn : lookupField fields "nodes" = some (Json.arr (ns1 ++ Json.obj nf :: ns2)))
    (hk : ¬ k ∈ nodeAllowedKeys nf) :
    canvasSchemaIssues (Json.obj (updateField fields "nodes"
        (Json.arr (ns1 ++ Json.obj (nf ++ [(k, v)]) :: ns2)))) =
      [([PathSeg.key "nodes", PathSeg.idx ns1.length], unrecognizedMsg [k])] := by
  rw [specConformsCanvas] at hconf
  simp only [Bool.and_eq_true] at hconf
  obtain ⟨⟨hkeys, hnodes⟩, hedges⟩ := hconf
  rw [hn] at hnodes
  simp only [] at hnodes
  simp only [List.all_append, List.all_cons, Bool.and_eq_true] at hnodes
  obtain ⟨h1, hO, h2⟩ := hnodes
  rw [canvasSchemaIssues]
  rw [strictIssues_nil _ _ _ _ (by rw [keysAllowed_update]; exact hkeys),
      lookupField_update_self _ _ _ _ hn,
      lookupField_update_ne _ _ _ _ (by decide),
      edgesMatch_nil fields hedges]
  simp only []
  rw [arrayIssues_single [PathSeg.key "nodes"] nodeIssues specConformsNode nodeIssues_nil
        (Json.obj (nf ++ [(k, v)])) (unrecognizedMsg [k])
        (fun i => nodeIssues_extend ([PathSeg.key "nodes"] ++ [PathSeg.idx i]) nf k v
          (by assumption) hk)
        ns1 ns2 0 h1 h2]
  simp

/-- Adding an unknown key to one edge of a conforming document yields
exactly the unrecognized-key issue at that edge's indexed path. -/
theorem canvasIssues_edge_extend (fields ef : List (String × Json)) (es1 es2 : List Json)
    (k : String) (v : Json)
    (hconf : specConformsCanvas (Json.obj fields) = true)
    (he : lookupField fields "edges" = some (Json.arr (es1 ++ Json.obj ef :: es2)))
    (hk : ¬ k ∈ edgeAllowed) :
    canvasSchemaIssues (Json.obj (updateField fields "edges"
        (Json.arr (es1 ++ Json.obj (ef ++ [(k, v)]) :: es2)))) =
      [([PathSeg.key "edges", PathSeg.idx es1.length], unrecognizedMsg [k])] := by
  rw [specConformsCanvas] at hconf
  simp only [Bool.and_eq_true] at hconf
  obtain ⟨⟨hkeys, hnodes⟩, hedges⟩ := hconf
  rw [he] at hedges
  simp only [] at hedges
  simp only [List.all_append, List.all_cons, Bool.and_eq_true] at hedges
  obtain ⟨h1, hO, h2⟩ := hedges
  rw [canvasSchemaIssues]
  rw [strictIssues_nil _ _ _ _ (by rw [keysAllowed_update]; exact hkeys),
      lookupField_update_self _ _ _ _ he,
      lookupField_update_ne _ _ _ _ (by decide),
      nodesMatch_nil fields hnodes]
  simp only []
  rw [arrayIssues_single [PathSeg.key "edges"] edgeIssues specConformsEdge edgeIssues_nil
        (Json.obj (ef ++ [(k, v)])) (unrecognizedMsg [k])
        (fun i => edgeIssues_extend ([PathSeg.key "edges"] ++ [PathSeg.idx i]) ef k v
          (by assumption) hk)
        es1 es2 0 h1 h2]
  simp

/-- C5 counterexample: adding the unknown key `foo` to the valid empty
document is rejected, but the sole issue carries the root path `[]` and
the fixed custom message — neither the field path nor the message
identifies the offending key. -/
theorem claim_C5_counterexample :
    specConformsCanvas (Json.obj []) = true ∧
    canvasSchemaIssues (Json.obj ([] ++ [("foo", Json.null)])) =
      [([], "Canvas object must only contain \x27nodes\x27 and \x27edges\x27 properties")] ∧
    ¬ ∃ iss ∈ canvasSchemaIssues (Json.obj ([] ++ [("foo", Json.null)])),
        PathSeg.key "foo" ∈ iss.1 := by
  refine ⟨rfl, rfl, ?_⟩
  decide

/-- C5 amended: every parsed JSON value conforming to the §3 data model
is accepted by `canvasSchema`; adding an unknown key to an otherwise
valid document is always rejected with exactly one `unrecognized_keys`
issue whose field path identifies the CONTAINING object — the root for
a top-level key (with the fixed custom message that does not name the
key), or `nodes.i`/`edges.i` for a per-node/per-edge key (whose default
message does name the offending key). -/
theorem claim_C5 :
    (∀ j : Json, specConformsCanvas j = true → canvasSchemaIssues j = []) ∧
    (∀ (fields : List (String × Json)) (k : String) (v : Json),
      specConformsCanvas (Json.obj fields) = true →
      ¬ k ∈ (["nodes", "edges"] : List String) →
      canvasSchemaIssues (Json.obj (fields ++ [(k, v)])) = [([], topMsg)]) ∧
    (∀ (fields nf : List (String × Json)) (ns1 ns2 : List Json) (k : String) (v : Json),
      specConformsCanvas (Json.obj fields) = true →
      lookupField fields "nodes" = some (Json.arr (ns1 ++ Json.obj nf :: ns2)) →
      ¬ k ∈ nodeAllowedKeys nf →
      canvasSchemaIssues (Json.obj (updateField fields "nodes"
          (Json.arr (ns1 ++ Json.obj (nf ++ [(k, v)]) :: ns2)))) =
        [([PathSeg.key "nodes", PathSeg.idx ns1.length], unrecognizedMsg [k])]) ∧
    (∀ (fields ef : List (String × Json)) (es1 es2 : List Json) (k : String) (v : Json),
      specConformsCanvas (Json.obj fields) = true →
      lookupField fields "edges" = some (Json.arr (es1 ++ Json.obj ef :: es2)) →
      ¬ k ∈ edgeAllowed →
      canvasSchemaIssues (Json.obj (updateField fields "edges"
          (Json.arr (es1 ++ Json.obj (ef ++ [(k, v)]) :: es2)))) =
        [([PathSeg.key "edges", PathSeg.idx es1.length], unrecognizedMsg [k])]) :=
  ⟨canvasSchemaIssues_nil,
   canvasIssues_top_extend,
   fun fields nf ns1 ns2 k v => canvasIssues_node_extend fields nf ns1 ns2 k v,
   fun fields ef es1 es2 k v => canvasIssues_edge_extend fields ef es1 es2 k v⟩

/-- Witness for the amended C5 at concrete documents. -/
theorem claim_C5_witness :
    canvasSchemaIssues (Json.obj [("nodes", Json.arr []), ("edges", Json.arr [])]) = [] ∧
    canvasSchemaIssues (Json.obj ([("nodes", Json.arr [])] ++ [("foo", Json.null)])) =
      [([], topMsg)] ∧
    canvasSchemaIssues (Json.obj (updateField [("nodes",
        Json.arr ([] ++ Json.obj [("id", Json.str "n1"), ("type", Json.str "text"),
          ("text", Json.str "hi"), ("x", Json.num true 0), ("y", Json.num true 0),
          ("width", Json.num true 10), ("height", Json.num true 10)] :: []))] "nodes"
        (Json.arr ([] ++ Json.obj ([("id", Json.str "n1"), ("type", Json.str "text"),
          ("text", Json.str "hi"), ("x", Json.num true 0), ("y", Json.num true 0),
          ("width", Json.num true 10), ("height", Json.num true 10)] ++
            [("colour", Json.str "1")]) :: [])))) =
      [([PathSeg.key "nodes", PathSeg.idx (0 : Nat)], unrecognizedMsg ["colour"])] ∧
    canvasSchemaIssues (Json.obj (updateField [("edges",
        Json.arr ([] ++ Json.obj [("id", Json.str "e1"), ("fromNode", Json.str "n1"),
          ("toNode", Json.str "n2")] :: []))] "edges"
        (Json.arr ([] ++ Json.obj ([("id", Json.str "e1"), ("fromNode", Json.str "n1"),
          ("toNode", Json.str "n2")] ++ [("to", Json.str "n9")]) :: [])))) =
      [([PathSeg.key "edges", PathSeg.idx (0 : Nat)], unrecognizedMsg ["to"])] := by
  refine ⟨?_, ?_, ?_, ?_⟩
  · exact claim_C5.1 (Json.obj [("nodes", Json.arr []), ("edges", Json.arr [])]) rfl
  · exact claim_C5.2.1 [("nodes", Json.arr [])] "foo" Json.null rfl (by decide)
  · exact claim_C5.2.2.1 _ _ [] [] "colour" (Json.str "1") rfl rfl (by decide)
  · exact claim_C5.2.2.2 _ _ [] [] "to" (Json.str "n9") rfl rfl (by decide)

end ObsidianMcp
